import Mathlib

/-!
# Verification of the SFDMU Job Orchestrator (`migrationJob.ts`)

A shallow embedding of `src/modules/models/job_models/migrationJob.ts`:
the task-ordering algorithm (`MigrationJob.setup`), the query-task order,
the multi-pass retrieval protocol, the two-pass update protocol, reverse
deletion, the CSV validate-and-repair pipeline, and the cached CSV content
with its synthesized-identifier generator.

External collaborators that are not part of the file under verification
(the `Task` operations, `Common` helpers, constants, the logger) are
modelled from the specification as explicit parameters or small
definitions; each such definition carries a doc comment starting with
`Modelled from the spec:`.
-/

namespace SFDMU

/-- Modelled from the spec: `CONSTANTS.RECORD_TYPE_SOBJECT_NAME`, the name of
the designated identity/reference-type object ("RecordType"); the constant
lives in `statics.ts`, outside the file under verification. -/
def RECORD_TYPE_SOBJECT_NAME : String := "RecordType"

/-- The relationship metadata and flags of one migrated object type
(`ScriptObject`).  Parent relationships are recorded by object name, which is
all `migrationJob.ts` ever compares (`x.name == objectToAdd.name`).
`processAllSource` / `processAllTarget` are fields mutated by `setup`.
`sourceAllRecords` — Modelled from the spec: the value of
`task.sourceData.allRecords`, the task's source-side "fetch all records"
flag (the `TaskOrgData` class is outside the file under verification). -/
structure ScriptObject where
  name : String
  allRecords : Bool := false
  isSpecialObject : Bool := false
  isObjectWithoutRelationships : Bool := false
  isReadonlyObject : Bool := false
  isLimitedQuery : Bool := false
  hasComplexExternalId : Bool := false
  hasAutonumberExternalId : Bool := false
  parentLookupObjects : List String := []
  parentMasterDetailObjects : List String := []
  sourceAllRecords : Bool := false
  processAllSource : Bool := false
  processAllTarget : Bool := false
  deriving DecidableEq

/-- One `MigrationJobTask`, as far as `migrationJob.ts` observes it: the
wrapped (mutated) `ScriptObject` and the mutable scratch flag
`tempData.isMasterDetailTask`.  `uid` models JavaScript object identity
(each `new Task(...)` is a distinct reference): it is the position of the
object in the declared input list. -/
structure Task where
  uid : Nat
  scriptObject : ScriptObject
  isMasterDetailTask : Bool := false
  deriving DecidableEq

/-- JavaScript `array.splice(i, 0, a)`: insert `a` at index `i`
(clamped to the length, as `splice` clamps). -/
def insertAt (l : List α) (i : Nat) (a : α) : List α :=
  l.take i ++ a :: l.drop i

/-- The `processAllSource` / `processAllTarget` assignment `setup` performs
on each `objectToAdd` before placing it (migrationJob.ts lines 66–79). -/
def applyProcessAll (o : ScriptObject) : ScriptObject :=
  if o.allRecords || o.isSpecialObject || o.isObjectWithoutRelationships then
    { o with processAllSource := true, processAllTarget := true }
  else if o.hasComplexExternalId || o.hasAutonumberExternalId then
    { o with processAllSource := false, processAllTarget := true }
  else
    { o with processAllSource := false, processAllTarget := false }

/-- One iteration of the backward scan of `setup`'s general case
(migrationJob.ts lines 98–113).  The state is the current task list (whose
elements' `isMasterDetailTask` flags the loop may set) together with the
current `indexToInsert`. -/
def scanBody (objectToAdd : ScriptObject) (s : List Task × Nat) (i : Nat) :
    List Task × Nat :=
  match s.1[i]? with
  | none => s
  | some existedTask =>
    let isObjectToAddParentLookup :=
      existedTask.scriptObject.parentLookupObjects.any (fun x => x == objectToAdd.name)
    let isExistedTaskParentMasterDetail :=
      objectToAdd.parentMasterDetailObjects.any
        (fun x => x == existedTask.scriptObject.name)
      || existedTask.isMasterDetailTask
    if isObjectToAddParentLookup && !isExistedTaskParentMasterDetail then
      (s.1, i)
    else if isExistedTaskParentMasterDetail then
      (s.1.set i { existedTask with isMasterDetailTask := true }, s.2)
    else
      s

/-- The backward scan `for (existedTaskIndex = tasks.length - 1;
existedTaskIndex >= lowerIndexForAnyObjects; existedTaskIndex--)`:
visits the indices `tasks.length - 1, …, lowerAny` in that order, starting
from `indexToInsert = tasks.length`.  Returns the (possibly re-flagged)
task list and the final `indexToInsert`. -/
def scanTasks (objectToAdd : ScriptObject) (tasks : List Task) (lowerAny : Nat) :
    List Task × Nat :=
  ((List.range' lowerAny (tasks.length - lowerAny)).reverse).foldl
    (scanBody objectToAdd) (tasks, tasks.length)

/-- The state threaded through `setup`'s placement loop: the growing task
chain and the two floor indices `lowerIndexForAnyObjects`,
`lowerIndexForReadonlyObjects`. -/
structure SetupState where
  tasks : List Task := []
  lowerAny : Nat := 0
  lowerRO : Nat := 0
  deriving DecidableEq

/-- One iteration of `this.script.objects.forEach(objectToAdd => …)`
(migrationJob.ts lines 59–119): mutate the object's `processAll*` flags,
then place the new task by the four exclusive first-match rules
(RecordType unshift / read-only splice at the read-only floor /
first-object push / scanned insertion). -/
def setupStep (s : SetupState) (io : Nat × ScriptObject) : SetupState :=
  let objectToAdd := applyProcessAll io.2
  let newTask : Task := { uid := io.1, scriptObject := objectToAdd }
  if objectToAdd.name == RECORD_TYPE_SOBJECT_NAME then
    { tasks := newTask :: s.tasks, lowerAny := s.lowerAny + 1, lowerRO := s.lowerRO + 1 }
  else if objectToAdd.isReadonlyObject then
    { tasks := insertAt s.tasks s.lowerRO newTask,
      lowerAny := s.lowerAny + 1, lowerRO := s.lowerRO }
  else if s.tasks.length == 0 then
    { s with tasks := s.tasks ++ [newTask] }
  else
    let scanned := scanTasks objectToAdd s.tasks s.lowerAny
    { s with tasks := insertAt scanned.1 scanned.2 newTask }

/-- The task-chain construction of `MigrationJob.setup`
(migrationJob.ts lines 54–119), over the declared object list. -/
def setupTasks (objects : List ScriptObject) : SetupState :=
  objects.enum.foldl setupStep {}

/-- The query-task order of `MigrationJob.setup` (migrationJob.ts lines
121–132): first the tasks with `sourceData.allRecords` or
`scriptObject.isLimitedQuery`, in task order; then every task not already
present (`queryTasks.indexOf(task) < 0`), in task order. -/
def buildQueryTasks (tasks : List Task) : List Task :=
  let firstPass := tasks.foldl
    (fun acc task =>
      if task.scriptObject.sourceAllRecords || task.scriptObject.isLimitedQuery then
        acc ++ [task]
      else acc) []
  tasks.foldl (fun acc task => if task ∈ acc then acc else acc ++ [task]) firstPass

/-- The outcome of `MigrationJob.setup`: the execution order `tasks` and the
retrieval order `queryTasks`. -/
structure MigrationJobModel where
  tasks : List Task
  queryTasks : List Task
  deriving DecidableEq

/-- `MigrationJob.setup` (migrationJob.ts lines 50–141): build the task
chain, then the query-task order. -/
def setup (objects : List ScriptObject) : MigrationJobModel :=
  let st := setupTasks objects
  { tasks := st.tasks, queryTasks := buildQueryTasks st.tasks }

/-! ## Cached CSV content and synthesized identifiers -/

/-- Modelled from the spec: the most-significant-first decimal digits of `n`
for `n > 0`, with explicit fuel (`Common.addLeadnigZeros` renders the counter
in decimal; `Common` is outside the file under verification). -/
def decDigitsGo : Nat → Nat → List Nat
  | 0, _ => []
  | fuel + 1, n => if n = 0 then [] else decDigitsGo fuel (n / 10) ++ [n % 10]

/-- Modelled from the spec: the decimal digit string of `n`, most significant
digit first (`[0]` for zero). -/
def decRepr (n : Nat) : List Nat :=
  if n = 0 then [0] else decDigitsGo (n + 1) n

/-- Modelled from the spec: `Common.addLeadnigZeros(num, length)` — the
decimal rendering of `num`, left-padded with `'0'` to at least `length`
characters (the helper lives in `common.ts`, outside the file under
verification; the source's spelling of the name is kept). -/
def addLeadnigZeros (num : Nat) (length : Nat) : String :=
  let ds := decRepr num
  String.mk (List.replicate (length - ds.length) '0' ++ ds.map Nat.digitChar)

/-- `CachedCSVContent` (migrationJob.ts lines 509–543): the csv data cache
map, the set of updated file names, and the identifier counter.  The two
collections are modelled as association/member lists. -/
structure CachedCSVContent where
  csvDataCacheMap : List (String × List (String × String)) := []
  updatedFilenames : List String := []
  idCounter : Nat := 0
  deriving DecidableEq

/-- `CachedCSVContent.clear` (lines 538–542): empty both collections and
reset the counter to 1. -/
def CachedCSVContent.clear (_c : CachedCSVContent) : CachedCSVContent :=
  { csvDataCacheMap := [], updatedFilenames := [], idCounter := 1 }

/-- The `CachedCSVContent` constructor (lines 511–513): `this.clear()`. -/
def CachedCSVContent.new : CachedCSVContent :=
  CachedCSVContent.clear {}

/-- `CachedCSVContent.nextId` (lines 528–530): the returned string
`"ID" + addLeadnigZeros(idCounter++, 16)` together with the post-increment
state. -/
def CachedCSVContent.nextId (c : CachedCSVContent) : String × CachedCSVContent :=
  ("ID" ++ addLeadnigZeros c.idCounter 16, { c with idCounter := c.idCounter + 1 })

/-- The `k`-th identifier produced by successive reads of `nextId` starting
from state `c` (the read at position 0 is the first read). -/
def idSeq (c : CachedCSVContent) : Nat → String
  | 0 => c.nextId.1
  | k + 1 => idSeq c.nextId.2 k

/-! ## Oracles for the external `Task` operations

`MigrationJobTask` is outside the file under verification.  Its operations
are modelled from the spec as explicit stateful oracles over an arbitrary
world type `σ` (they read and mutate the per-task record sets, so two calls
with the same arguments may return different results — the spec's reason for
the repeated backward pass). -/

/-- The query direction argument of `retrieveRecords` / `updateRecords`. -/
inductive Direction
  | forwards
  | backwards
  | target
  deriving DecidableEq

/-- The observable events of `MigrationJob.retrieveRecords`: every logger
message it emits and every `task.retrieveRecords(direction, reversed)` call
with its result. -/
inductive REvent
  | newLine
  | headerRetrievingData (step : Nat)
  | passLog (n : Nat)
  | separator
  | noRecords
  | retrievingDataCompleted (step : Nat)
  | targetLog
  | fetchingSummary
  | totallyFetched (t : Task)
  | call (t : Task) (dir : Direction) (reversed : Bool) (result : Bool)
  deriving DecidableEq

/-- One `for` loop of `retrieveRecords`: `retrieved =
await task.retrieveRecords(dir, reversed) || retrieved` over the given task
list, threading the world `σ`.  Returns the final world, the final
`retrieved` flag and the call events in order. -/
def retrieveLoop (oracle : σ → Task → Direction → Bool → σ × Bool)
    (dir : Direction) (reversed : Bool) :
    List Task → σ → Bool → σ × Bool × List REvent
  | [], s, r => (s, r, [])
  | t :: ts, s, r =>
    let p := oracle s t dir reversed
    let rest := retrieveLoop oracle dir reversed ts p.1 (p.2 || r)
    (rest.1, rest.2.1, .call t dir reversed p.2 :: rest.2.2)

/-- One pass of `retrieveRecords`: the pass-introducing log events, the loop
(with `retrieved` reset to `false`), then `noRecords` when nothing was
retrieved. -/
def retrievePass (oracle : σ → Task → Direction → Bool → σ × Bool)
    (pre : List REvent) (dir : Direction) (reversed : Bool)
    (queryTasks : List Task) (s : σ) : σ × List REvent :=
  let L := retrieveLoop oracle dir reversed queryTasks s false
  (L.1, pre ++ L.2.2 ++ if L.2.1 then [] else [REvent.noRecords])

/-- STEP 1 of `retrieveRecords` (migrationJob.ts lines 228–240): source
"forwards", not reversed, closed by the step-1 completion log. -/
def retrieveStep1 (oracle : σ → Task → Direction → Bool → σ × Bool)
    (queryTasks : List Task) (s : σ) : σ × List REvent :=
  let p := retrievePass oracle [REvent.newLine, REvent.headerRetrievingData 1]
    .forwards false queryTasks s
  (p.1, p.2 ++ [REvent.retrievingDataCompleted 1])

/-- STEP 2 of `retrieveRecords` (lines 242–285): pass 1 "backwards", pass 2
"backwards" again, pass 3 "forwards" with the reversed flag set; each pass
resets `retrieved` and reports `noRecords` on its own. -/
def retrieveStep2 (oracle : σ → Task → Direction → Bool → σ × Bool)
    (queryTasks : List Task) (s : σ) : σ × List REvent :=
  let p1 := retrievePass oracle
    [REvent.newLine, REvent.headerRetrievingData 2, REvent.passLog 1, REvent.separator]
    .backwards false queryTasks s
  let p2 := retrievePass oracle [REvent.newLine, REvent.passLog 2, REvent.separator]
    .backwards false queryTasks p1.1
  let p3 := retrievePass oracle [REvent.newLine, REvent.passLog 3, REvent.separator]
    .forwards true queryTasks p2.1
  (p3.1, p1.2 ++ p2.2 ++ p3.2)

/-- STEP 3 of `retrieveRecords` (lines 287–300): the target-only pass, closed
by the completion log (which the source labels with the step-2 resource). -/
def retrieveStep3 (oracle : σ → Task → Direction → Bool → σ × Bool)
    (queryTasks : List Task) (s : σ) : σ × List REvent :=
  let p := retrievePass oracle [REvent.newLine, REvent.targetLog, REvent.separator]
    .target false queryTasks s
  (p.1, p.2 ++ [REvent.retrievingDataCompleted 2])

/-- `MigrationJob.retrieveRecords` (lines 227–311): the three steps in
sequence followed by the total-fetched summary. -/
def retrieveRecords (oracle : σ → Task → Direction → Bool → σ × Bool)
    (queryTasks : List Task) (s : σ) : σ × List REvent :=
  let s1 := retrieveStep1 oracle queryTasks s
  let s2 := retrieveStep2 oracle queryTasks s1.1
  let s3 := retrieveStep3 oracle queryTasks s2.1
  (s3.1, s1.2 ++ s2.2 ++ s3.2
    ++ [REvent.newLine, REvent.fetchingSummary]
    ++ queryTasks.map REvent.totallyFetched)

/-- The `(task, direction, reversed)` triples of the `task.retrieveRecords`
calls recorded in an event list, in order. -/
def callsOf (evs : List REvent) : List (Task × Direction × Bool) :=
  evs.filterMap fun e =>
    match e with
    | .call t d r _ => some (t, d, r)
    | _ => none

/-- The results of the `task.retrieveRecords` calls recorded in an event
list, in order. -/
def resultsOf (evs : List REvent) : List Bool :=
  evs.filterMap fun e =>
    match e with
    | .call _ _ _ r => some r
    | _ => none

/-- The observable events of `MigrationJob.updateRecords`. -/
inductive UEvent
  | newLine
  | headerUpdatingTarget (step : Nat)
  | updatingTargetCompleted (step : Nat)
  | nothingUpdated
  | ucall (t : Task) (dir : Direction) (result : Nat)
  deriving DecidableEq

/-- One `for` loop of `updateRecords`: `updated +=
await task.updateRecords(dir)` over the given task list. -/
def updateLoop (oracle : σ → Task → Direction → σ × Nat) (dir : Direction) :
    List Task → σ → Nat → σ × Nat × List UEvent
  | [], s, u => (s, u, [])
  | t :: ts, s, u =>
    let p := oracle s t dir
    let rest := updateLoop oracle dir ts p.1 (u + p.2)
    (rest.1, rest.2.1, .ucall t dir p.2 :: rest.2.2)

/-- One step of `updateRecords` (migrationJob.ts lines 314–327 and 329–342):
reset `updated`, loop in task order, then log the completed message when
`updated > 0` and the nothing-updated message otherwise. -/
def updateStep (oracle : σ → Task → Direction → σ × Nat) (dir : Direction)
    (step : Nat) (tasks : List Task) (s : σ) : σ × List UEvent :=
  let L := updateLoop oracle dir tasks s 0
  (L.1, [UEvent.newLine, UEvent.headerUpdatingTarget step] ++ L.2.2
    ++ [if L.2.1 > 0 then UEvent.updatingTargetCompleted step else UEvent.nothingUpdated])

/-- `MigrationJob.updateRecords` (lines 313–343): the "forwards" step over
`tasks`, then the "backwards" step over `tasks`. -/
def updateRecords (oracle : σ → Task → Direction → σ × Nat)
    (tasks : List Task) (s : σ) : σ × List UEvent :=
  let u1 := updateStep oracle .forwards 1 tasks s
  let u2 := updateStep oracle .backwards 2 tasks u1.1
  (u2.1, u1.2 ++ u2.2)

/-- The `(task, direction)` pairs of the `task.updateRecords` calls recorded
in an event list, in order. -/
def ucallsOf (evs : List UEvent) : List (Task × Direction) :=
  evs.filterMap fun e =>
    match e with
    | .ucall t d _ => some (t, d)
    | _ => none

/-- The per-call updated-record counts recorded in an event list, in order. -/
def ucountsOf (evs : List UEvent) : List Nat :=
  evs.filterMap fun e =>
    match e with
    | .ucall _ _ n => some n
    | _ => none

/-- The observable events of `MigrationJob.deleteOldRecords`. -/
inductive DEvent
  | newLine
  | headerDeletingOldData
  | deletingOldDataCompleted
  | deletingOldDataSkipped
  | dcall (t : Task) (result : Bool)
  deriving DecidableEq

/-- The `for` loop of `deleteOldRecords`: `deleted =
await task.deleteOldTargetRecords() || deleted` over the given task list. -/
def deleteLoop (oracle : σ → Task → σ × Bool) :
    List Task → σ → Bool → σ × Bool × List DEvent
  | [], s, d => (s, d, [])
  | t :: ts, s, d =>
    let p := oracle s t
    let rest := deleteLoop oracle ts p.1 (p.2 || d)
    (rest.1, rest.2.1, .dcall t p.2 :: rest.2.2)

/-- `MigrationJob.deleteOldRecords` (migrationJob.ts lines 203–219): iterate
the tasks from the last index down to 0, then log completed or skipped; the
method's return value is `Promise<void>`, modelled as the `Unit` in the
result. -/
def deleteOldRecords (oracle : σ → Task → σ × Bool) (tasks : List Task)
    (s : σ) : σ × List DEvent × Unit :=
  let L := deleteLoop oracle tasks.reverse s false
  (L.1,
    [DEvent.newLine, DEvent.headerDeletingOldData] ++ L.2.2
      ++ [if L.2.1 then DEvent.deletingOldDataCompleted else DEvent.deletingOldDataSkipped],
    ())

/-- The `(task, result)` pairs of the `task.deleteOldTargetRecords` calls
recorded in an event list, in order. -/
def dcallsOf (evs : List DEvent) : List (Task × Bool) :=
  evs.filterMap fun e =>
    match e with
    | .dcall t r => some (t, r)
    | _ => none

/-! ## CSV validation and repair -/

/-- One row of the CSV issues report (`ICSVIssues`,
migrationJob.ts lines 498–507). -/
structure CSVIssue where
  date : String := ""
  childValue : String := ""
  childSObject : String := ""
  childField : String := ""
  parentValue : String := ""
  parentSObject : String := ""
  parentField : String := ""
  error : String := ""
  deriving DecidableEq

/-- The observable events of `validateCSVFiles` and
`_validateAndRepairSourceCSVFiles`. -/
inductive VEvent
  | mergeUserGroup
  | loadValueMapping
  | copyCsvToSourceSubDir
  | validatingLog
  | validationCompletedLog
  | validatingSkippedLog
  | promptShown (issueCount : Nat)
  | saveUpdatedFilesLog
  | reportSaved
  | warnIssues (issueCount : Nat)
  | noIssuesLog
  | clearCache
  deriving DecidableEq

/-- `MigrationJob._validateAndRepairSourceCSVFiles`
(migrationJob.ts lines 433–486).  The per-task results of the external
`task.validateCSV()` and `task.repairCSV(cache)` calls are the inputs
`validateOut` and `repairOut` (Modelled from the spec: `MigrationJobTask`
is outside the file under verification); `this.csvIssues` starts from
`csvIssues0` (the field's initial value is `[]`).  The events are: the
phase-A prompt when structural issues exist, the cached-file save with its
verbose count log, then either the phase-B prompt (when phase A did not
prompt), or the report save plus the warning, or the clean no-issues log. -/
def validateAndRepair (csvIssues0 : List CSVIssue)
    (validateOut repairOut : List (List CSVIssue)) : List VEvent :=
  let issuesA := validateOut.foldl (fun acc l => acc ++ l) csvIssues0
  let promptedA := issuesA.length > 0
  let evsA := if issuesA.length > 0 then [VEvent.promptShown issuesA.length] else []
  let issuesAll := repairOut.foldl (fun acc l => acc ++ l) issuesA
  let evsB :=
    if issuesAll.length > 0 then
      if !promptedA then [VEvent.promptShown issuesAll.length]
      else [VEvent.reportSaved, VEvent.warnIssues issuesAll.length]
    else [VEvent.noIssuesLog]
  evsA ++ [VEvent.saveUpdatedFilesLog] ++ evsB

/-- The media type of an endpoint (`DATA_MEDIA_TYPE`; the enumeration lives
outside the file under verification, used here only to branch on
`sourceOrg.media == DATA_MEDIA_TYPE.File`). -/
inductive DataMediaType
  | Org
  | File
  deriving DecidableEq

/-- How `validateCSVFiles` returns: normally, or by throwing `SuccessExit`
(the clean, successful early termination of validate-only mode). -/
inductive Outcome
  | normal
  | successExitThrown
  deriving DecidableEq

/-- `MigrationJob.validateCSVFiles` (migrationJob.ts lines 150–178): when the
source media is `File`, merge the User/Group files, load the value mapping,
copy the csv files aside; unless `importCSVFilesAsIs`, run
validate-and-repair, then throw `SuccessExit` when `validateCSVFilesOnly`,
else clear the cached csv data. -/
def validateCSVFiles (media : DataMediaType)
    (importCSVFilesAsIs validateCSVFilesOnly : Bool)
    (validateOut repairOut : List (List CSVIssue)) : List VEvent × Outcome :=
  if media = DataMediaType.File then
    let pre := [VEvent.mergeUserGroup, VEvent.loadValueMapping,
      VEvent.copyCsvToSourceSubDir]
    if !importCSVFilesAsIs then
      let evs := pre ++ [VEvent.validatingLog]
        ++ validateAndRepair [] validateOut repairOut
        ++ [VEvent.validationCompletedLog]
      if validateCSVFilesOnly then (evs, Outcome.successExitThrown)
      else (evs ++ [VEvent.clearCache], Outcome.normal)
    else (pre ++ [VEvent.validatingSkippedLog], Outcome.normal)
  else ([], Outcome.normal)

/-- The phases of the migration pipeline around `validateCSVFiles`. -/
inductive PhaseEvent
  | csvPhase (e : VEvent)
  | countPhase
  | deletePhase
  | retrievePhase
  | updatePhase
  deriving DecidableEq

/-- Modelled from the spec: the run pipeline that owns the job
(`setup → validateCSVFiles → getTotalRecordsCount → deleteOldRecords →
retrieveRecords → updateRecords`, §2 of the spec; the runner lives outside
the file under verification).  A thrown `SuccessExit` stops the pipeline
outright and is treated as a clean, successful termination (§7). -/
def runPipeline (media : DataMediaType)
    (importCSVFilesAsIs validateCSVFilesOnly : Bool)
    (validateOut repairOut : List (List CSVIssue)) : List PhaseEvent × Bool :=
  let v := validateCSVFiles media importCSVFilesAsIs validateCSVFilesOnly
    validateOut repairOut
  let evs := v.1.map PhaseEvent.csvPhase
  match v.2 with
  | Outcome.successExitThrown => (evs, true)
  | Outcome.normal =>
    (evs ++ [PhaseEvent.countPhase, PhaseEvent.deletePhase,
      PhaseEvent.retrievePhase, PhaseEvent.updatePhase], true)

/-- The number of continue-or-abort prompts recorded in an event list. -/
def promptCount (evs : List VEvent) : Nat :=
  (evs.filter fun e =>
    match e with
    | VEvent.promptShown _ => true
    | _ => false).length

/-! ## Loop lemmas for the retrieval / update / delete drivers -/

theorem callsOf_cons_call (t : Task) (d : Direction) (rv res : Bool)
    (evs : List REvent) :
    callsOf (REvent.call t d rv res :: evs) = (t, d, rv) :: callsOf evs := rfl

theorem resultsOf_cons_call (t : Task) (d : Direction) (rv res : Bool)
    (evs : List REvent) :
    resultsOf (REvent.call t d rv res :: evs) = res :: resultsOf evs := rfl

theorem retrieveLoop_cons (oracle : σ → Task → Direction → Bool → σ × Bool)
    (dir : Direction) (rv : Bool) (t : Task) (ts : List Task) (s : σ) (r : Bool) :
    (retrieveLoop oracle dir rv (t :: ts) s r).2.2 =
      REvent.call t dir rv (oracle s t dir rv).2 ::
        (retrieveLoop oracle dir rv ts (oracle s t dir rv).1
          ((oracle s t dir rv).2 || r)).2.2 := rfl

theorem retrieveLoop_cons_flag (oracle : σ → Task → Direction → Bool → σ × Bool)
    (dir : Direction) (rv : Bool) (t : Task) (ts : List Task) (s : σ) (r : Bool) :
    (retrieveLoop oracle dir rv (t :: ts) s r).2.1 =
      (retrieveLoop oracle dir rv ts (oracle s t dir rv).1
        ((oracle s t dir rv).2 || r)).2.1 := rfl

theorem retrieveLoop_calls (oracle : σ → Task → Direction → Bool → σ × Bool)
    (dir : Direction) (rv : Bool) :
    ∀ (ts : List Task) (s : σ) (r : Bool),
      callsOf (retrieveLoop oracle dir rv ts s r).2.2 =
        ts.map (fun t => (t, dir, rv)) := by
  intro ts
  induction ts with
  | nil => intro s r; rfl
  | cons t ts ih =>
    intro s r
    rw [retrieveLoop_cons, callsOf_cons_call, ih]
    rfl

theorem retrieveLoop_flag (oracle : σ → Task → Direction → Bool → σ × Bool)
    (dir : Direction) (rv : Bool) :
    ∀ (ts : List Task) (s : σ) (r : Bool),
      (retrieveLoop oracle dir rv ts s r).2.1 =
        (((resultsOf (retrieveLoop oracle dir rv ts s r).2.2).any (fun b => b)) || r) := by
  intro ts
  induction ts with
  | nil => intro s r; rfl
  | cons t ts ih =>
    intro s r
    rw [retrieveLoop_cons_flag, retrieveLoop_cons, resultsOf_cons_call, ih,
      List.any_cons]
    cases (oracle s t dir rv).2 <;> cases r <;> simp

theorem retrieveLoop_no_noRecords (oracle : σ → Task → Direction → Bool → σ × Bool)
    (dir : Direction) (rv : Bool) :
    ∀ (ts : List Task) (s : σ) (r : Bool),
      REvent.noRecords ∉ (retrieveLoop oracle dir rv ts s r).2.2 := by
  intro ts
  induction ts with
  | nil => intro s r; simp [retrieveLoop]
  | cons t ts ih =>
    intro s r
    simp only [retrieveLoop, List.mem_cons]
    rintro (h | h)
    · simp at h
    · exact ih _ _ h

theorem callsOf_append (a b : List REvent) :
    callsOf (a ++ b) = callsOf a ++ callsOf b := by
  simp [callsOf, List.filterMap_append]

theorem resultsOf_append (a b : List REvent) :
    resultsOf (a ++ b) = resultsOf a ++ resultsOf b := by
  simp [resultsOf, List.filterMap_append]

theorem resultsOf_nil : resultsOf [] = [] := rfl

theorem resultsOf_noRecords : resultsOf [REvent.noRecords] = [] := rfl

theorem retrievePass_events (oracle : σ → Task → Direction → Bool → σ × Bool)
    (pre : List REvent) (dir : Direction) (rv : Bool) (qt : List Task) (s : σ) :
    (retrievePass oracle pre dir rv qt s).2 =
      pre ++ (retrieveLoop oracle dir rv qt s false).2.2
        ++ (if (retrieveLoop oracle dir rv qt s false).2.1 then []
            else [REvent.noRecords]) := rfl

theorem retrievePass_calls (oracle : σ → Task → Direction → Bool → σ × Bool)
    (pre : List REvent) (dir : Direction) (rv : Bool) (qt : List Task) (s : σ)
    (hpre : callsOf pre = []) :
    callsOf (retrievePass oracle pre dir rv qt s).2 =
      qt.map (fun t => (t, dir, rv)) := by
  rw [retrievePass_events, callsOf_append, callsOf_append, hpre,
    retrieveLoop_calls]
  cases (retrieveLoop oracle dir rv qt s false).2.1 <;> simp [callsOf]

theorem retrievePass_noRecords (oracle : σ → Task → Direction → Bool → σ × Bool)
    (pre : List REvent) (dir : Direction) (rv : Bool) (qt : List Task) (s : σ)
    (hpre : REvent.noRecords ∉ pre) (hpre2 : resultsOf pre = []) :
    (REvent.noRecords ∈ (retrievePass oracle pre dir rv qt s).2 ↔
      (resultsOf (retrievePass oracle pre dir rv qt s).2).any (fun b => b) = false) := by
  have hflag := retrieveLoop_flag oracle dir rv qt s false
  have hno := retrieveLoop_no_noRecords oracle dir rv qt s false
  rw [retrievePass_events, hflag, Bool.or_false]
  cases h : (resultsOf (retrieveLoop oracle dir rv qt s false).2.2).any (fun b => b) with
  | true => simp [resultsOf_append, resultsOf_nil, resultsOf_noRecords, hpre2, hpre, hno, h]
  | false => simp [resultsOf_append, resultsOf_nil, resultsOf_noRecords, hpre2, hpre, hno, h]

theorem ucallsOf_append (a b : List UEvent) :
    ucallsOf (a ++ b) = ucallsOf a ++ ucallsOf b := by
  simp [ucallsOf, List.filterMap_append]

theorem ucountsOf_append (a b : List UEvent) :
    ucountsOf (a ++ b) = ucountsOf a ++ ucountsOf b := by
  simp [ucountsOf, List.filterMap_append]

theorem updateLoop_cons (oracle : σ → Task → Direction → σ × Nat)
    (dir : Direction) (t : Task) (ts : List Task) (s : σ) (u : Nat) :
    (updateLoop oracle dir (t :: ts) s u).2.2 =
      UEvent.ucall t dir (oracle s t dir).2 ::
        (updateLoop oracle dir ts (oracle s t dir).1 (u + (oracle s t dir).2)).2.2 := rfl

theorem updateLoop_cons_total (oracle : σ → Task → Direction → σ × Nat)
    (dir : Direction) (t : Task) (ts : List Task) (s : σ) (u : Nat) :
    (updateLoop oracle dir (t :: ts) s u).2.1 =
      (updateLoop oracle dir ts (oracle s t dir).1 (u + (oracle s t dir).2)).2.1 := rfl

theorem updateLoop_calls (oracle : σ → Task → Direction → σ × Nat)
    (dir : Direction) :
    ∀ (ts : List Task) (s : σ) (u : Nat),
      ucallsOf (updateLoop oracle dir ts s u).2.2 = ts.map (fun t => (t, dir)) := by
  intro ts
  induction ts with
  | nil => intro s u; rfl
  | cons t ts ih =>
    intro s u
    rw [updateLoop_cons]
    rw [show ucallsOf (UEvent.ucall t dir (oracle s t dir).2 :: _) =
      (t, dir) :: ucallsOf _ from rfl, ih]
    rfl

theorem updateLoop_total (oracle : σ → Task → Direction → σ × Nat)
    (dir : Direction) :
    ∀ (ts : List Task) (s : σ) (u : Nat),
      (updateLoop oracle dir ts s u).2.1 =
        u + (ucountsOf (updateLoop oracle dir ts s u).2.2).sum := by
  intro ts
  induction ts with
  | nil => intro s u; simp [updateLoop, ucountsOf]
  | cons t ts ih =>
    intro s u
    rw [updateLoop_cons_total, updateLoop_cons, ih]
    rw [show ucountsOf (UEvent.ucall t dir (oracle s t dir).2 :: _) =
      (oracle s t dir).2 :: ucountsOf _ from rfl]
    simp [List.sum_cons]
    omega

theorem updateLoop_no_messages (oracle : σ → Task → Direction → σ × Nat)
    (dir : Direction) :
    ∀ (ts : List Task) (s : σ) (u : Nat) (e : UEvent),
      e ∈ (updateLoop oracle dir ts s u).2.2 →
        ∃ t d n, e = UEvent.ucall t d n := by
  intro ts
  induction ts with
  | nil => intro s u e h; simp [updateLoop] at h
  | cons t ts ih =>
    intro s u e h
    rw [updateLoop_cons] at h
    rcases List.mem_cons.mp h with h | h
    · exact ⟨t, dir, (oracle s t dir).2, h⟩
    · exact ih _ _ _ h

theorem dcallsOf_append (a b : List DEvent) :
    dcallsOf (a ++ b) = dcallsOf a ++ dcallsOf b := by
  simp [dcallsOf, List.filterMap_append]

theorem deleteLoop_cons (oracle : σ → Task → σ × Bool) (t : Task)
    (ts : List Task) (s : σ) (d : Bool) :
    (deleteLoop oracle (t :: ts) s d).2.2 =
      DEvent.dcall t (oracle s t).2 ::
        (deleteLoop oracle ts (oracle s t).1 ((oracle s t).2 || d)).2.2 := rfl

theorem deleteLoop_cons_flag (oracle : σ → Task → σ × Bool) (t : Task)
    (ts : List Task) (s : σ) (d : Bool) :
    (deleteLoop oracle (t :: ts) s d).2.1 =
      (deleteLoop oracle ts (oracle s t).1 ((oracle s t).2 || d)).2.1 := rfl

theorem deleteLoop_calls (oracle : σ → Task → σ × Bool) :
    ∀ (ts : List Task) (s : σ) (d : Bool),
      (dcallsOf (deleteLoop oracle ts s d).2.2).map Prod.fst = ts := by
  intro ts
  induction ts with
  | nil => intro s d; rfl
  | cons t ts ih =>
    intro s d
    rw [deleteLoop_cons]
    rw [show dcallsOf (DEvent.dcall t (oracle s t).2 :: _) =
      (t, (oracle s t).2) :: dcallsOf _ from rfl]
    simp only [List.map_cons, ih]

theorem deleteLoop_flag (oracle : σ → Task → σ × Bool) :
    ∀ (ts : List Task) (s : σ) (d : Bool),
      (deleteLoop oracle ts s d).2.1 =
        (((dcallsOf (deleteLoop oracle ts s d).2.2).map Prod.snd).any (fun b => b) || d) := by
  intro ts
  induction ts with
  | nil => intro s d; rfl
  | cons t ts ih =>
    intro s d
    rw [deleteLoop_cons_flag, deleteLoop_cons, ih]
    rw [show dcallsOf (DEvent.dcall t (oracle s t).2 :: _) =
      (t, (oracle s t).2) :: dcallsOf _ from rfl]
    simp only [List.map_cons, List.any_cons]
    cases (oracle s t).2 <;> cases d <;> simp

theorem deleteLoop_no_messages (oracle : σ → Task → σ × Bool) :
    ∀ (ts : List Task) (s : σ) (d : Bool) (e : DEvent),
      e ∈ (deleteLoop oracle ts s d).2.2 → ∃ t r, e = DEvent.dcall t r := by
  intro ts
  induction ts with
  | nil => intro s d e h; simp [deleteLoop] at h
  | cons t ts ih =>
    intro s d e h
    rw [deleteLoop_cons] at h
    rcases List.mem_cons.mp h with h | h
    · exact ⟨t, (oracle s t).2, h⟩
    · exact ih _ _ _ h

/-! ## Update-protocol lemmas (`updateStep`) -/

theorem updateStep_events (oracle : σ → Task → Direction → σ × Nat)
    (dir : Direction) (step : Nat) (tasks : List Task) (s : σ) :
    (updateStep oracle dir step tasks s).2 =
      [UEvent.newLine, UEvent.headerUpdatingTarget step]
        ++ (updateLoop oracle dir tasks s 0).2.2
        ++ [if (updateLoop oracle dir tasks s 0).2.1 > 0 then
              UEvent.updatingTargetCompleted step
            else UEvent.nothingUpdated] := rfl

theorem updateStep_calls (oracle : σ → Task → Direction → σ × Nat)
    (dir : Direction) (step : Nat) (tasks : List Task) (s : σ) :
    ucallsOf (updateStep oracle dir step tasks s).2 = tasks.map (fun t => (t, dir)) := by
  rw [updateStep_events, ucallsOf_append, ucallsOf_append, updateLoop_calls]
  rw [show ucallsOf [UEvent.newLine, UEvent.headerUpdatingTarget step] = [] from rfl]
  split <;> simp [ucallsOf]

theorem updateStep_counts (oracle : σ → Task → Direction → σ × Nat)
    (dir : Direction) (step : Nat) (tasks : List Task) (s : σ) :
    ucountsOf (updateStep oracle dir step tasks s).2 =
      ucountsOf (updateLoop oracle dir tasks s 0).2.2 := by
  rw [updateStep_events, ucountsOf_append, ucountsOf_append]
  rw [show ucountsOf [UEvent.newLine, UEvent.headerUpdatingTarget step] = [] from rfl]
  split <;> simp [ucountsOf]

theorem updateStep_completed (oracle : σ → Task → Direction → σ × Nat)
    (dir : Direction) (step : Nat) (tasks : List Task) (s : σ) :
    (UEvent.updatingTargetCompleted step ∈ (updateStep oracle dir step tasks s).2 ↔
      0 < (ucountsOf (updateStep oracle dir step tasks s).2).sum) := by
  have htot : (updateLoop oracle dir tasks s 0).2.1 =
      (ucountsOf (updateLoop oracle dir tasks s 0).2.2).sum := by
    rw [updateLoop_total]; omega
  have hloop : UEvent.updatingTargetCompleted step ∉ (updateLoop oracle dir tasks s 0).2.2 := by
    intro hm
    rcases updateLoop_no_messages oracle dir tasks s 0 _ hm with ⟨t, d, n, he⟩
    exact absurd he (by simp)
  rw [updateStep_counts, updateStep_events, htot]
  by_cases h : 0 < (ucountsOf (updateLoop oracle dir tasks s 0).2.2).sum
  · rw [if_pos h]
    simp [h]
  · rw [if_neg h]
    simp [h, hloop]

theorem updateStep_nothingUpdated (oracle : σ → Task → Direction → σ × Nat)
    (dir : Direction) (step : Nat) (tasks : List Task) (s : σ) :
    (UEvent.nothingUpdated ∈ (updateStep oracle dir step tasks s).2 ↔
      (ucountsOf (updateStep oracle dir step tasks s).2).sum = 0) := by
  have htot : (updateLoop oracle dir tasks s 0).2.1 =
      (ucountsOf (updateLoop oracle dir tasks s 0).2.2).sum := by
    rw [updateLoop_total]; omega
  have hloop : UEvent.nothingUpdated ∉ (updateLoop oracle dir tasks s 0).2.2 := by
    intro hm
    rcases updateLoop_no_messages oracle dir tasks s 0 _ hm with ⟨t, d, n, he⟩
    exact absurd he (by simp)
  rw [updateStep_counts, updateStep_events, htot]
  by_cases h : 0 < (ucountsOf (updateLoop oracle dir tasks s 0).2.2).sum
  · rw [if_pos h]
    simp [hloop]
    omega
  · rw [if_neg h]
    simp [hloop]
    omega

/-- C9.  `updateRecords()` performs exactly two steps: step 1 invokes each
task's `updateRecords("forwards")` for every task in `tasks` order, step 2
repeats over every task in `tasks` order with `"backwards"`; and each step
logs a "completed" message exactly when its own accumulated updated-record
count is nonzero, and a "nothing updated" message exactly when that count is
zero. -/
theorem C9_updateRecords_two_steps (oracle : σ → Task → Direction → σ × Nat)
    (tasks : List Task) (s : σ) :
    (updateRecords oracle tasks s).2 =
        (updateStep oracle Direction.forwards 1 tasks s).2
          ++ (updateStep oracle Direction.backwards 2 tasks
                (updateStep oracle Direction.forwards 1 tasks s).1).2
      ∧ ucallsOf (updateStep oracle Direction.forwards 1 tasks s).2 =
          tasks.map (fun t => (t, Direction.forwards))
      ∧ ucallsOf (updateStep oracle Direction.backwards 2 tasks
            (updateStep oracle Direction.forwards 1 tasks s).1).2 =
          tasks.map (fun t => (t, Direction.backwards))
      ∧ (UEvent.updatingTargetCompleted 1 ∈
            (updateStep oracle Direction.forwards 1 tasks s).2 ↔
          0 < (ucountsOf (updateStep oracle Direction.forwards 1 tasks s).2).sum)
      ∧ (UEvent.nothingUpdated ∈
            (updateStep oracle Direction.forwards 1 tasks s).2 ↔
          (ucountsOf (updateStep oracle Direction.forwards 1 tasks s).2).sum = 0)
      ∧ (UEvent.updatingTargetCompleted 2 ∈
            (updateStep oracle Direction.backwards 2 tasks
              (updateStep oracle Direction.forwards 1 tasks s).1).2 ↔
          0 < (ucountsOf (updateStep oracle Direction.backwards 2 tasks
              (updateStep oracle Direction.forwards 1 tasks s).1).2).sum)
      ∧ (UEvent.nothingUpdated ∈
            (updateStep oracle Direction.backwards 2 tasks
              (updateStep oracle Direction.forwards 1 tasks s).1).2 ↔
          (ucountsOf (updateStep oracle Direction.backwards 2 tasks
              (updateStep oracle Direction.forwards 1 tasks s).1).2).sum = 0) :=
  ⟨rfl, updateStep_calls _ _ _ _ _, updateStep_calls _ _ _ _ _,
    updateStep_completed _ _ _ _ _, updateStep_nothingUpdated _ _ _ _ _,
    updateStep_completed _ _ _ _ _, updateStep_nothingUpdated _ _ _ _ _⟩

/-! ## Delete protocol (C8) -/

theorem deleteOldRecords_events (oracle : σ → Task → σ × Bool)
    (tasks : List Task) (s : σ) :
    (deleteOldRecords oracle tasks s).2.1 =
      [DEvent.newLine, DEvent.headerDeletingOldData]
        ++ (deleteLoop oracle tasks.reverse s false).2.2
        ++ [if (deleteLoop oracle tasks.reverse s false).2.1 then
              DEvent.deletingOldDataCompleted
            else DEvent.deletingOldDataSkipped] := rfl

theorem deleteOldRecords_calls (oracle : σ → Task → σ × Bool)
    (tasks : List Task) (s : σ) :
    (dcallsOf (deleteOldRecords oracle tasks s).2.1).map Prod.fst = tasks.reverse := by
  rw [deleteOldRecords_events, dcallsOf_append, dcallsOf_append]
  rw [show dcallsOf [DEvent.newLine, DEvent.headerDeletingOldData] = [] from rfl]
  have h2 : dcallsOf [if (deleteLoop oracle tasks.reverse s false).2.1 then
      DEvent.deletingOldDataCompleted else DEvent.deletingOldDataSkipped] = [] := by
    split <;> rfl
  rw [h2]
  simp [deleteLoop_calls]

theorem deleteOldRecords_messages (oracle : σ → Task → σ × Bool)
    (tasks : List Task) (s : σ) :
    (DEvent.deletingOldDataCompleted ∈ (deleteOldRecords oracle tasks s).2.1 ↔
        ((dcallsOf (deleteOldRecords oracle tasks s).2.1).map Prod.snd).any (fun b => b)
          = true)
      ∧ (DEvent.deletingOldDataSkipped ∈ (deleteOldRecords oracle tasks s).2.1 ↔
        ((dcallsOf (deleteOldRecords oracle tasks s).2.1).map Prod.snd).any (fun b => b)
          = false) := by
  have hflag := deleteLoop_flag oracle tasks.reverse s false
  rw [Bool.or_false] at hflag
  have hcalls : dcallsOf (deleteOldRecords oracle tasks s).2.1 =
      dcallsOf (deleteLoop oracle tasks.reverse s false).2.2 := by
    rw [deleteOldRecords_events, dcallsOf_append, dcallsOf_append]
    rw [show dcallsOf [DEvent.newLine, DEvent.headerDeletingOldData] = [] from rfl]
    have h2 : dcallsOf [if (deleteLoop oracle tasks.reverse s false).2.1 then
        DEvent.deletingOldDataCompleted else DEvent.deletingOldDataSkipped] = [] := by
      split <;> rfl
    rw [h2]
    simp
  have hcomp : DEvent.deletingOldDataCompleted ∉
      (deleteLoop oracle tasks.reverse s false).2.2 := by
    intro hm
    rcases deleteLoop_no_messages oracle tasks.reverse s false _ hm with ⟨t, r, he⟩
    exact absurd he (by simp)
  have hskip : DEvent.deletingOldDataSkipped ∉
      (deleteLoop oracle tasks.reverse s false).2.2 := by
    intro hm
    rcases deleteLoop_no_messages oracle tasks.reverse s false _ hm with ⟨t, r, he⟩
    exact absurd he (by simp)
  rw [hcalls, deleteOldRecords_events, ← hflag]
  cases h : (deleteLoop oracle tasks.reverse s false).2.1 with
  | true => simp [hcomp, hskip]
  | false => simp [hcomp, hskip]

/-- C8 (amended).  `deleteOldRecords()` iterates the tasks in exactly the
reverse of the `tasks` execution order, invoking each task's delete
operation once; it logs the deletion-completed message exactly when some
task's delete returned true and the skipped message exactly when none did;
its return value is `void` (modelled `Unit`) and carries no information. -/
theorem C8_deleteOldRecords_reverse_order (oracle : σ → Task → σ × Bool)
    (tasks : List Task) (s : σ) :
    (dcallsOf (deleteOldRecords oracle tasks s).2.1).map Prod.fst = tasks.reverse
      ∧ (DEvent.deletingOldDataCompleted ∈ (deleteOldRecords oracle tasks s).2.1 ↔
        ((dcallsOf (deleteOldRecords oracle tasks s).2.1).map Prod.snd).any (fun b => b)
          = true)
      ∧ (DEvent.deletingOldDataSkipped ∈ (deleteOldRecords oracle tasks s).2.1 ↔
        ((dcallsOf (deleteOldRecords oracle tasks s).2.1).map Prod.snd).any (fun b => b)
          = false)
      ∧ (deleteOldRecords oracle tasks s).2.2 = () :=
  ⟨deleteOldRecords_calls _ _ _, (deleteOldRecords_messages _ _ _).1,
    (deleteOldRecords_messages _ _ _).2, rfl⟩

/-- A task used by the concrete counterexample runs. -/
def cexTaskA : Task := { uid := 0, scriptObject := { name := "A" } }

/-- A delete oracle whose every call reports that nothing was deleted. -/
def delOracleNone : Unit → Task → Unit × Bool := fun s _ => (s, false)

/-- A delete oracle whose every call reports a deletion. -/
def delOracleAll : Unit → Task → Unit × Bool := fun s _ => (s, true)

/-- C8 counterexample.  The claim says `deleteOldRecords()` "returns whether
anything was deleted"; in the source the method's type is `Promise<void>`.
Two runs on the same task list, one where nothing was deleted (the skipped
message is logged) and one where something was deleted (the completed
message is logged), return the identical value `()` — the return value does
not carry whether anything was deleted. -/
theorem C8_counterexample_void_return :
    (deleteOldRecords delOracleNone [cexTaskA] ()).2.2 =
        (deleteOldRecords delOracleAll [cexTaskA] ()).2.2
      ∧ DEvent.deletingOldDataSkipped ∈ (deleteOldRecords delOracleNone [cexTaskA] ()).2.1
      ∧ DEvent.deletingOldDataSkipped ∉ (deleteOldRecords delOracleAll [cexTaskA] ()).2.1
      ∧ DEvent.deletingOldDataCompleted ∈ (deleteOldRecords delOracleAll [cexTaskA] ()).2.1 := by
  refine ⟨rfl, ?_, ?_, ?_⟩ <;> decide

/-! ## Retrieval protocol (C2) -/

/-- The first pass of STEP 2 (source "backwards"), with its entry state. -/
def step2p1 (oracle : σ → Task → Direction → Bool → σ × Bool)
    (qt : List Task) (s : σ) : σ × List REvent :=
  retrievePass oracle
    [REvent.newLine, REvent.headerRetrievingData 2, REvent.passLog 1, REvent.separator]
    .backwards false qt s

/-- The second pass of STEP 2 (source "backwards" again). -/
def step2p2 (oracle : σ → Task → Direction → Bool → σ × Bool)
    (qt : List Task) (s : σ) : σ × List REvent :=
  retrievePass oracle [REvent.newLine, REvent.passLog 2, REvent.separator]
    .backwards false qt (step2p1 oracle qt s).1

/-- The third pass of STEP 2 (source "forwards" with the reversed flag). -/
def step2p3 (oracle : σ → Task → Direction → Bool → σ × Bool)
    (qt : List Task) (s : σ) : σ × List REvent :=
  retrievePass oracle [REvent.newLine, REvent.passLog 3, REvent.separator]
    .forwards true qt (step2p2 oracle qt s).1

theorem retrieveStep2_decomp (oracle : σ → Task → Direction → Bool → σ × Bool)
    (qt : List Task) (s : σ) :
    (retrieveStep2 oracle qt s).2 =
      (step2p1 oracle qt s).2 ++ (step2p2 oracle qt s).2 ++ (step2p3 oracle qt s).2 := rfl

theorem retrieveStep1_decomp (oracle : σ → Task → Direction → Bool → σ × Bool)
    (qt : List Task) (s : σ) :
    (retrieveStep1 oracle qt s).2 =
      (retrievePass oracle [REvent.newLine, REvent.headerRetrievingData 1]
          .forwards false qt s).2
        ++ [REvent.retrievingDataCompleted 1] := rfl

theorem retrieveStep3_decomp (oracle : σ → Task → Direction → Bool → σ × Bool)
    (qt : List Task) (s : σ) :
    (retrieveStep3 oracle qt s).2 =
      (retrievePass oracle [REvent.newLine, REvent.targetLog, REvent.separator]
          .target false qt s).2
        ++ [REvent.retrievingDataCompleted 2] := rfl

theorem pass_then_completed_noRecords
    (oracle : σ → Task → Direction → Bool → σ × Bool) (pre : List REvent)
    (dir : Direction) (rv : Bool) (qt : List Task) (s : σ) (k : Nat)
    (hpre : REvent.noRecords ∉ pre) (hpre2 : resultsOf pre = []) :
    (REvent.noRecords ∈
        (retrievePass oracle pre dir rv qt s).2 ++ [REvent.retrievingDataCompleted k] ↔
      (resultsOf ((retrievePass oracle pre dir rv qt s).2
          ++ [REvent.retrievingDataCompleted k])).any (fun b => b) = false) := by
  have h := retrievePass_noRecords oracle pre dir rv qt s hpre hpre2
  rw [resultsOf_append,
    show resultsOf [REvent.retrievingDataCompleted k] = [] from rfl,
    List.append_nil]
  simpa using h

/-- C2 (amended).  `retrieveRecords()` executes exactly three sequential
steps over `queryTasks` in order: step 1 calls each task with direction
"forwards" and reversed-mode false once; step 2 runs three passes
("backwards" non-reversed, "backwards" non-reversed again, then "forwards"
with the reversed-mode flag true); step 3 calls each task with direction
"target" non-reversed.  The "no records" message is emitted per pass —
once for step 1, once for each of the three passes of step 2, and once for
step 3 — exactly when no task's call in that pass retrieved records (so a
"no records" message can appear inside step 2 even though a task retrieved
records in an earlier pass of that same step). -/
theorem C2_retrieveRecords_three_steps
    (oracle : σ → Task → Direction → Bool → σ × Bool) (qt : List Task) (s : σ) :
    (retrieveRecords oracle qt s).2 =
        (retrieveStep1 oracle qt s).2
          ++ (retrieveStep2 oracle qt (retrieveStep1 oracle qt s).1).2
          ++ (retrieveStep3 oracle qt
                (retrieveStep2 oracle qt (retrieveStep1 oracle qt s).1).1).2
          ++ [REvent.newLine, REvent.fetchingSummary]
          ++ qt.map REvent.totallyFetched
      ∧ callsOf (retrieveStep1 oracle qt s).2 =
          qt.map (fun t => (t, Direction.forwards, false))
      ∧ callsOf (retrieveStep2 oracle qt (retrieveStep1 oracle qt s).1).2 =
          qt.map (fun t => (t, Direction.backwards, false))
            ++ qt.map (fun t => (t, Direction.backwards, false))
            ++ qt.map (fun t => (t, Direction.forwards, true))
      ∧ callsOf (retrieveStep3 oracle qt
            (retrieveStep2 oracle qt (retrieveStep1 oracle qt s).1).1).2 =
          qt.map (fun t => (t, Direction.target, false))
      ∧ (REvent.noRecords ∈ (retrieveStep1 oracle qt s).2 ↔
          (resultsOf (retrieveStep1 oracle qt s).2).any (fun b => b) = false)
      ∧ (REvent.noRecords ∈ (step2p1 oracle qt (retrieveStep1 oracle qt s).1).2 ↔
          (resultsOf (step2p1 oracle qt (retrieveStep1 oracle qt s).1).2).any
            (fun b => b) = false)
      ∧ (REvent.noRecords ∈ (step2p2 oracle qt (retrieveStep1 oracle qt s).1).2 ↔
          (resultsOf (step2p2 oracle qt (retrieveStep1 oracle qt s).1).2).any
            (fun b => b) = false)
      ∧ (REvent.noRecords ∈ (step2p3 oracle qt (retrieveStep1 oracle qt s).1).2 ↔
          (resultsOf (step2p3 oracle qt (retrieveStep1 oracle qt s).1).2).any
            (fun b => b) = false)
      ∧ (REvent.noRecords ∈ (retrieveStep3 oracle qt
            (retrieveStep2 oracle qt (retrieveStep1 oracle qt s).1).1).2 ↔
          (resultsOf (retrieveStep3 oracle qt
              (retrieveStep2 oracle qt (retrieveStep1 oracle qt s).1).1).2).any
            (fun b => b) = false) := by
  refine ⟨rfl, ?_, ?_, ?_, ?_, ?_, ?_, ?_, ?_⟩
  · rw [retrieveStep1_decomp, callsOf_append,
      retrievePass_calls _ _ _ _ _ _ (by rfl)]
    simp [callsOf]
  · rw [retrieveStep2_decomp, callsOf_append, callsOf_append]
    rw [step2p1, step2p2, step2p3,
      retrievePass_calls _ _ _ _ _ _ (by rfl),
      retrievePass_calls _ _ _ _ _ _ (by rfl),
      retrievePass_calls _ _ _ _ _ _ (by rfl)]
  · rw [retrieveStep3_decomp, callsOf_append,
      retrievePass_calls _ _ _ _ _ _ (by rfl)]
    simp [callsOf]
  · rw [retrieveStep1_decomp]
    exact pass_then_completed_noRecords _ _ _ _ _ _ _ (by decide) rfl
  · exact retrievePass_noRecords _ _ _ _ _ _ (by decide) rfl
  · exact retrievePass_noRecords _ _ _ _ _ _ (by decide) rfl
  · exact retrievePass_noRecords _ _ _ _ _ _ (by decide) rfl
  · rw [retrieveStep3_decomp]
    exact pass_then_completed_noRecords _ _ _ _ _ _ _ (by decide) rfl

/-- The stateful retrieve oracle of the C2 counterexample: the very first
"backwards" call of the run retrieves records, every other call retrieves
nothing (the world counts the "backwards" calls made so far).  This realizes
the spec's own premise that pass 2 re-runs "backwards" because results can
change once pass 1 added parent context. -/
def cexRetrieveOracle : Nat → Task → Direction → Bool → Nat × Bool :=
  fun s _ dir _ =>
    match dir with
    | Direction.backwards => (s + 1, s == 0)
    | _ => (s, false)

/-- C2 counterexample.  The claim says a "no records" message is shown for a
step only if no task in that step retrieved any records.  With one task and
the oracle above, step 2's pass 1 retrieves records while its pass 2 does
not, so step 2's events contain both a call that retrieved records and a
"no records" message — the message is per pass, not per step. -/
theorem C2_counterexample_noRecords_per_pass :
    REvent.noRecords ∈
        (retrieveStep2 cexRetrieveOracle [cexTaskA]
          (retrieveStep1 cexRetrieveOracle [cexTaskA] 0).1).2
      ∧ (resultsOf (retrieveStep2 cexRetrieveOracle [cexTaskA]
            (retrieveStep1 cexRetrieveOracle [cexTaskA] 0).1).2).any (fun b => b)
          = true := by
  constructor <;> decide

/-! ## CSV validate-and-repair (C5) and validate-only early exit (C6) -/

theorem foldl_append_flatten (l : List (List α)) :
    ∀ acc : List α, l.foldl (fun a x => a ++ x) acc = acc ++ l.flatten := by
  induction l with
  | nil => intro acc; simp
  | cons x l ih =>
    intro acc
    simp only [List.foldl_cons, ih, List.flatten_cons, List.append_assoc]

/-- C5.  During validate-and-repair the continue-or-abort prompt is shown at
most once: exactly once when structural (phase A) issues exist — regardless
of how many tasks contributed them — and otherwise exactly once when any
repair-phase (phase B) issue exists; when phase A prompted, the accumulated
issues are instead written to the report file together with a warning
carrying the total issue count; and the clean no-issues message is logged
exactly when no issue exists at all. -/
theorem C5_validateAndRepair_prompt_logic (validateOut repairOut : List (List CSVIssue)) :
    promptCount (validateAndRepair [] validateOut repairOut) =
        (if 0 < validateOut.flatten.length then 1
         else if 0 < repairOut.flatten.length then 1 else 0)
      ∧ (VEvent.reportSaved ∈ validateAndRepair [] validateOut repairOut ↔
          0 < validateOut.flatten.length)
      ∧ (VEvent.warnIssues (validateOut.flatten ++ repairOut.flatten).length ∈
            validateAndRepair [] validateOut repairOut ↔
          0 < validateOut.flatten.length)
      ∧ (VEvent.noIssuesLog ∈ validateAndRepair [] validateOut repairOut ↔
          (validateOut.flatten.length = 0 ∧ repairOut.flatten.length = 0)) := by
  simp only [validateAndRepair, foldl_append_flatten, List.nil_append,
    List.length_flatten, List.length_append]
  by_cases hA : 0 < (validateOut.map List.length).sum
  · have hA0 : ¬ (validateOut.map List.length).sum = 0 := by omega
    simp [promptCount, hA, hA0]
  · have hA0 : (validateOut.map List.length).sum = 0 := by omega
    by_cases hB : 0 < (repairOut.map List.length).sum
    · have hB0 : ¬ (repairOut.map List.length).sum = 0 := by omega
      simp [promptCount, hA, hA0, hB, hB0]
    · have hB0 : (repairOut.map List.length).sum = 0 := by omega
      simp [promptCount, hA, hA0, hB, hB0]

theorem validateAndRepair_no_clearCache (c : List CSVIssue)
    (a b : List (List CSVIssue)) : VEvent.clearCache ∉ validateAndRepair c a b := by
  simp only [validateAndRepair]
  by_cases h1 : 0 < (a.foldl (fun acc l => acc ++ l) c).length
  · by_cases h2 :
      0 < (b.foldl (fun acc l => acc ++ l) (a.foldl (fun acc l => acc ++ l) c)).length
    · simp [h1, h2]
    · simp [h1, h2]
  · by_cases h2 :
      0 < (b.foldl (fun acc l => acc ++ l) (a.foldl (fun acc l => acc ++ l) c)).length
    · simp [h1, h2]
    · simp [h1, h2]

/-- C6.  When the source endpoint is file-based, import-as-is is not
requested and validate-only mode is requested, `validateCSVFiles()` throws
`SuccessExit` immediately after validation completes: the pipeline ends as a
clean success, the cached CSV content is never freed (`clearCache` does not
occur), and no retrieval (nor count/delete/update) phase runs. -/
theorem C6_validateOnly_success_exit (validateOut repairOut : List (List CSVIssue)) :
    (validateCSVFiles DataMediaType.File false true validateOut repairOut).2 =
        Outcome.successExitThrown
      ∧ (validateCSVFiles DataMediaType.File false true validateOut repairOut).1 =
          [VEvent.mergeUserGroup, VEvent.loadValueMapping, VEvent.copyCsvToSourceSubDir,
            VEvent.validatingLog]
            ++ validateAndRepair [] validateOut repairOut
            ++ [VEvent.validationCompletedLog]
      ∧ VEvent.clearCache ∉
          (validateCSVFiles DataMediaType.File false true validateOut repairOut).1
      ∧ (runPipeline DataMediaType.File false true validateOut repairOut).2 = true
      ∧ PhaseEvent.retrievePhase ∉
          (runPipeline DataMediaType.File false true validateOut repairOut).1
      ∧ PhaseEvent.countPhase ∉
          (runPipeline DataMediaType.File false true validateOut repairOut).1
      ∧ PhaseEvent.csvPhase VEvent.clearCache ∉
          (runPipeline DataMediaType.File false true validateOut repairOut).1 := by
  have hevs : (validateCSVFiles DataMediaType.File false true validateOut repairOut).1 =
      [VEvent.mergeUserGroup, VEvent.loadValueMapping, VEvent.copyCsvToSourceSubDir,
        VEvent.validatingLog]
        ++ validateAndRepair [] validateOut repairOut
        ++ [VEvent.validationCompletedLog] := by
    simp [validateCSVFiles]
  have hout : (validateCSVFiles DataMediaType.File false true validateOut repairOut).2 =
      Outcome.successExitThrown := by
    simp [validateCSVFiles]
  have hclear : VEvent.clearCache ∉
      (validateCSVFiles DataMediaType.File false true validateOut repairOut).1 := by
    rw [hevs]
    simp only [List.mem_append]
    rintro ((h | h) | h)
    · simp at h
    · exact validateAndRepair_no_clearCache _ _ _ h
    · simp at h
  have hrun : runPipeline DataMediaType.File false true validateOut repairOut =
      ((validateCSVFiles DataMediaType.File false true validateOut
          repairOut).1.map PhaseEvent.csvPhase, true) := by
    simp [runPipeline, hout]
  refine ⟨hout, hevs, hclear, ?_, ?_, ?_, ?_⟩
  · rw [hrun]
  · rw [hrun]
    simp
  · rw [hrun]
    simp
  · rw [hrun]
    simp only [List.mem_map]
    rintro ⟨e, he, hmap⟩
    cases hmap
    exact hclear he

/-! ## Synthesized identifiers (C7) -/

/-- The numeric value of a most-significant-first decimal digit list. -/
def decValue (ds : List Nat) : Nat :=
  ds.foldl (fun a d => 10 * a + d) 0

/-- The counter embedded in a synthesized identifier: the numeric value of
the characters after the two-letter prefix. -/
def parseId (s : String) : Nat :=
  (s.data.drop 2).foldl (fun a c => 10 * a + (c.toNat - 48)) 0

theorem decDigitsGo_val :
    ∀ (fuel n : Nat), n ≤ fuel →
      (decDigitsGo fuel n).foldl (fun a d => 10 * a + d) 0 = n := by
  intro fuel
  induction fuel with
  | zero =>
    intro n hn
    interval_cases n
    rfl
  | succ fuel ih =>
    intro n hn
    by_cases h0 : n = 0
    · subst h0; rfl
    · have hdiv : n / 10 < n := Nat.div_lt_self (Nat.pos_of_ne_zero h0) (by norm_num)
      have hle : n / 10 ≤ fuel := by omega
      rw [show decDigitsGo (fuel + 1) n =
        decDigitsGo fuel (n / 10) ++ [n % 10] from by rw [decDigitsGo]; simp [h0]]
      rw [List.foldl_append, ih _ hle]
      simp only [List.foldl_cons, List.foldl_nil]
      omega

theorem decRepr_val (n : Nat) :
    (decRepr n).foldl (fun a d => 10 * a + d) 0 = n := by
  by_cases h0 : n = 0
  · subst h0; rfl
  · rw [decRepr, if_neg h0]
    exact decDigitsGo_val (n + 1) n (by omega)

theorem decDigitsGo_lt_ten :
    ∀ (fuel n d : Nat), d ∈ decDigitsGo fuel n → d < 10 := by
  intro fuel
  induction fuel with
  | zero => intro n d h; simp [decDigitsGo] at h
  | succ fuel ih =>
    intro n d h
    by_cases h0 : n = 0
    · subst h0; simp [decDigitsGo] at h
    · rw [show decDigitsGo (fuel + 1) n =
        decDigitsGo fuel (n / 10) ++ [n % 10] from by rw [decDigitsGo]; simp [h0]] at h
      rcases List.mem_append.mp h with h | h
      · exact ih _ _ h
      · simp at h
        subst h
        exact Nat.mod_lt _ (by norm_num)

theorem decRepr_lt_ten (n d : Nat) (h : d ∈ decRepr n) : d < 10 := by
  by_cases h0 : n = 0
  · subst h0
    simp [decRepr] at h
    omega
  · rw [decRepr, if_neg h0] at h
    exact decDigitsGo_lt_ten _ _ _ h

theorem digitChar_val (d : Nat) (h : d < 10) : (Nat.digitChar d).toNat - 48 = d := by
  interval_cases d <;> decide

theorem foldl_digitChar (ds : List Nat) :
    ∀ (a : Nat), (∀ d ∈ ds, d < 10) →
      (ds.map Nat.digitChar).foldl (fun a c => 10 * a + (c.toNat - 48)) a =
        ds.foldl (fun a d => 10 * a + d) a := by
  induction ds with
  | nil => intro a _; rfl
  | cons d ds ih =>
    intro a h
    simp only [List.map_cons, List.foldl_cons]
    rw [digitChar_val d (h d (by simp))]
    exact ih _ (fun x hx => h x (by simp [hx]))

theorem foldl_replicate_zero_char (k : Nat) :
    ∀ (l : List Char),
      (List.replicate k '0' ++ l).foldl (fun a c => 10 * a + (c.toNat - 48)) 0 =
        l.foldl (fun a c => 10 * a + (c.toNat - 48)) 0 := by
  induction k with
  | zero => intro l; rfl
  | succ k ih =>
    intro l
    rw [List.replicate_succ, List.cons_append, List.foldl_cons]
    exact ih l

theorem parseId_pad (n len : Nat) :
    parseId ("ID" ++ addLeadnigZeros n len) = n := by
  have hdata : ("ID" ++ addLeadnigZeros n len).data =
      'I' :: 'D' :: (List.replicate (len - (decRepr n).length) '0'
        ++ (decRepr n).map Nat.digitChar) := by
    rw [String.data_append]
    rfl
  rw [parseId, hdata]
  simp only [List.drop_succ_cons, List.drop_zero]
  rw [foldl_replicate_zero_char]
  rw [foldl_digitChar _ _ (fun d hd => decRepr_lt_ten n d hd)]
  exact decRepr_val n

theorem idSeq_counter (c : CachedCSVContent) :
    ∀ (k : Nat), idSeq c k = "ID" ++ addLeadnigZeros (c.idCounter + k) 16 := by
  intro k
  induction k generalizing c with
  | zero => rfl
  | succ k ih =>
    rw [show idSeq c (k + 1) = idSeq c.nextId.2 k from rfl, ih]
    rw [show c.nextId.2.idCounter = c.idCounter + 1 from rfl]
    ring_nf

/-- C7.  Within one `CachedCSVContent` lifetime, `clear()` (also run by the
constructor) empties the cache map and the updated-file set and resets the
counter to 1; successive reads of `nextId` then produce identifiers of the
form `"ID"` followed by the zero-padded decimal counter, which are pairwise
distinct and carry strictly increasing counters; the first three reads after
a clear give `ID0000000000000001`, `ID0000000000000002`,
`ID0000000000000003`. -/
theorem C7_nextId_unique_increasing (c0 : CachedCSVContent) (i j : Nat)
    (hij : i < j) :
    (CachedCSVContent.clear c0).idCounter = 1
      ∧ (CachedCSVContent.clear c0).csvDataCacheMap = []
      ∧ (CachedCSVContent.clear c0).updatedFilenames = []
      ∧ idSeq (CachedCSVContent.clear c0) 0 = "ID0000000000000001"
      ∧ idSeq (CachedCSVContent.clear c0) 1 = "ID0000000000000002"
      ∧ idSeq (CachedCSVContent.clear c0) 2 = "ID0000000000000003"
      ∧ parseId (idSeq (CachedCSVContent.clear c0) i) = i + 1
      ∧ parseId (idSeq (CachedCSVContent.clear c0) i) <
          parseId (idSeq (CachedCSVContent.clear c0) j)
      ∧ idSeq (CachedCSVContent.clear c0) i ≠ idSeq (CachedCSVContent.clear c0) j := by
  have hclear : CachedCSVContent.clear c0 = CachedCSVContent.new := rfl
  have hval : ∀ k : Nat, parseId (idSeq (CachedCSVContent.clear c0) k) = k + 1 := by
    intro k
    rw [hclear, idSeq_counter, parseId_pad]
    rw [show CachedCSVContent.new.idCounter = 1 from rfl]
    omega
  refine ⟨rfl, rfl, rfl, ?_, ?_, ?_, hval i, ?_, ?_⟩
  · rw [hclear]; rfl
  · rw [hclear]; rfl
  · rw [hclear]; rfl
  · rw [hval i, hval j]; omega
  · intro heq
    have := hval i
    rw [heq, hval j] at this
    omega

/-- C7 witness: the theorem applied to a fresh cache and the read positions
0 < 1. -/
theorem C7_nextId_unique_increasing_witness :
    (CachedCSVContent.clear CachedCSVContent.new).idCounter = 1
      ∧ (CachedCSVContent.clear CachedCSVContent.new).csvDataCacheMap = []
      ∧ (CachedCSVContent.clear CachedCSVContent.new).updatedFilenames = []
      ∧ idSeq (CachedCSVContent.clear CachedCSVContent.new) 0 = "ID0000000000000001"
      ∧ idSeq (CachedCSVContent.clear CachedCSVContent.new) 1 = "ID0000000000000002"
      ∧ idSeq (CachedCSVContent.clear CachedCSVContent.new) 2 = "ID0000000000000003"
      ∧ parseId (idSeq (CachedCSVContent.clear CachedCSVContent.new) 0) = 0 + 1
      ∧ parseId (idSeq (CachedCSVContent.clear CachedCSVContent.new) 0) <
          parseId (idSeq (CachedCSVContent.clear CachedCSVContent.new) 1)
      ∧ idSeq (CachedCSVContent.clear CachedCSVContent.new) 0 ≠
          idSeq (CachedCSVContent.clear CachedCSVContent.new) 1 :=
  C7_nextId_unique_increasing CachedCSVContent.new 0 1 (by decide)

/-! ## Setup machinery: what the backward scan and the insertions preserve -/

/-- The identity-relevant part of a task: its JavaScript object identity and
its (mutated) `ScriptObject`; the scan may change only the
`isMasterDetailTask` flag, never this projection. -/
def taskKey (t : Task) : Nat × ScriptObject :=
  (t.uid, t.scriptObject)

theorem set_same (l : List α) : ∀ (i : Nat) (a : α), l[i]? = some a → l.set i a = l := by
  induction l with
  | nil => intro i a h; simp at h
  | cons x xs ih =>
    intro i a h
    cases i with
    | zero =>
      simp at h
      simp [List.set, h]
    | succ i =>
      simp at h
      simp [List.set, ih i a h]

theorem insertAt_length (l : List α) (i : Nat) (a : α) :
    (insertAt l i a).length = l.length + 1 := by
  simp [insertAt]
  omega

theorem insertAt_map (f : α → β) (l : List α) (i : Nat) (a : α) :
    (insertAt l i a).map f = insertAt (l.map f) i (f a) := by
  simp [insertAt, List.map_take, List.map_drop]

theorem insertAt_perm (l : List α) (i : Nat) (a : α) :
    (insertAt l i a).Perm (a :: l) := by
  have h := @List.perm_middle _ a (l.take i) (l.drop i)
  rw [List.take_append_drop] at h
  exact h

theorem insertAt_zero (l : List α) (a : α) : insertAt l 0 a = a :: l := by
  simp [insertAt]

theorem insertAt_length_self (l : List α) (a : α) :
    insertAt l l.length a = l ++ [a] := by
  simp [insertAt]

theorem insertAt_append_right (X Y : List α) (k : Nat) (a : α)
    (h : X.length ≤ k) :
    insertAt (X ++ Y) k a = X ++ insertAt Y (k - X.length) a := by
  simp [insertAt, List.take_append_eq_append_take, List.drop_append_eq_append_drop,
    List.take_of_length_le h, List.drop_eq_nil_of_le h]

theorem mem_insertAt (l : List α) (i : Nat) (a x : α)
    (h : x ∈ insertAt l i a) : x ∈ l ∨ x = a := by
  rw [insertAt] at h
  rcases List.mem_append.mp h with h | h
  · exact Or.inl (List.take_subset _ _ h)
  · rcases List.mem_cons.mp h with h | h
    · exact Or.inr h
    · exact Or.inl (List.drop_subset _ _ h)

theorem sublist_insertAt (l : List α) (i : Nat) (a : α) :
    l.Sublist (insertAt l i a) := by
  rw [insertAt]
  conv_lhs => rw [← List.take_append_drop i l]
  exact List.Sublist.append_left (List.sublist_cons_self a (l.drop i)) (l.take i)

theorem scanBody_map_taskKey (obj : ScriptObject) (s : List Task × Nat) (i : Nat) :
    ((scanBody obj s i).1).map taskKey = s.1.map taskKey := by
  rw [scanBody]
  cases h : s.1[i]? with
  | none => rfl
  | some t =>
    dsimp only
    split
    · rfl
    · split
      · rw [List.map_set]
        have hkey : taskKey { t with isMasterDetailTask := true } = taskKey t := rfl
        rw [hkey]
        apply set_same
        rw [List.getElem?_map, h]
        rfl
      · rfl

theorem scanFold_map_taskKey (obj : ScriptObject) :
    ∀ (idxs : List Nat) (s : List Task × Nat),
      ((idxs.foldl (scanBody obj) s).1).map taskKey = s.1.map taskKey := by
  intro idxs
  induction idxs with
  | nil => intro s; rfl
  | cons i idxs ih =>
    intro s
    rw [List.foldl_cons, ih, scanBody_map_taskKey]

theorem scanTasks_map_taskKey (obj : ScriptObject) (ts : List Task) (lo : Nat) :
    ((scanTasks obj ts lo).1).map taskKey = ts.map taskKey := by
  rw [scanTasks, scanFold_map_taskKey]

theorem scanTasks_length (obj : ScriptObject) (ts : List Task) (lo : Nat) :
    (scanTasks obj ts lo).1.length = ts.length := by
  have h := scanTasks_map_taskKey obj ts lo
  have := congrArg List.length h
  simpa using this

theorem scanBody_idx (obj : ScriptObject) (s : List Task × Nat) (i : Nat) :
    (scanBody obj s i).2 = s.2 ∨ (scanBody obj s i).2 = i := by
  rw [scanBody]
  cases h : s.1[i]? with
  | none => exact Or.inl rfl
  | some t =>
    dsimp only
    split
    · exact Or.inr rfl
    · split
      · exact Or.inl rfl
      · exact Or.inl rfl

theorem scanFold_idx (obj : ScriptObject) :
    ∀ (idxs : List Nat) (s : List Task × Nat),
      (idxs.foldl (scanBody obj) s).2 = s.2 ∨ (idxs.foldl (scanBody obj) s).2 ∈ idxs := by
  intro idxs
  induction idxs with
  | nil => intro s; exact Or.inl rfl
  | cons i idxs ih =>
    intro s
    rw [List.foldl_cons]
    rcases ih (scanBody obj s i) with h | h
    · rcases scanBody_idx obj s i with h2 | h2
      · rw [h, h2]; exact Or.inl rfl
      · rw [h, h2]; exact Or.inr (by simp)
    · exact Or.inr (by simp [h])

theorem scanTasks_idx (obj : ScriptObject) (ts : List Task) (lo : Nat) :
    (scanTasks obj ts lo).2 = ts.length ∨
      (lo ≤ (scanTasks obj ts lo).2 ∧ (scanTasks obj ts lo).2 < ts.length) := by
  rw [scanTasks]
  rcases scanFold_idx obj ((List.range' lo (ts.length - lo)).reverse) (ts, ts.length)
    with h | h
  · exact Or.inl h
  · right
    rw [List.mem_reverse] at h
    have := List.mem_range'_1.mp h
    omega

/-! ## One task per object (C10) -/

theorem setupStep_tasks_perm (s : SetupState) (p : Nat × ScriptObject) :
    ((setupStep s p).tasks.map taskKey).Perm
      ((p.1, applyProcessAll p.2) :: s.tasks.map taskKey) := by
  rw [setupStep]
  split
  · rw [List.map_cons]
    exact List.Perm.refl _
  · split
    · rw [insertAt_map]
      exact insertAt_perm _ _ _
    · split
      · rw [List.map_append]
        exact List.perm_append_singleton _ _
      · dsimp only
        rw [insertAt_map, scanTasks_map_taskKey]
        exact insertAt_perm _ _ _

theorem setupFold_tasks_perm :
    ∀ (l : List (Nat × ScriptObject)) (s : SetupState),
      ((l.foldl setupStep s).tasks.map taskKey).Perm
        (s.tasks.map taskKey ++ l.map (fun p => (p.1, applyProcessAll p.2))) := by
  intro l
  induction l with
  | nil => intro s; simp
  | cons p l ih =>
    intro s
    rw [List.foldl_cons]
    refine (ih (setupStep s p)).trans ?_
    refine (List.Perm.append_right _ (setupStep_tasks_perm s p)).trans ?_
    rw [List.map_cons]
    exact (List.perm_middle).symm

theorem setup_perm_keys (objects : List ScriptObject) :
    ((setup objects).tasks.map taskKey).Perm
      (objects.enum.map (fun p => (p.1, applyProcessAll p.2))) := by
  have := setupFold_tasks_perm objects.enum {}
  simpa [setupTasks] using this

theorem setup_tasks_length (objects : List ScriptObject) :
    (setup objects).tasks.length = objects.length := by
  have hlen := (setup_perm_keys objects).length_eq
  simpa using hlen

/-- C10.  `setup()` produces one task per declared `ScriptObject`: the tasks'
`(identity, scriptObject)` keys are a permutation of the enumerated input
objects (after the `processAll*` mutation each object undergoes), so no
object is dropped, none is duplicated, and `tasks.length` equals the number
of declared objects. -/
theorem C10_setup_one_task_per_object (objects : List ScriptObject) :
    ((setup objects).tasks.map taskKey).Perm
        (objects.enum.map (fun p => (p.1, applyProcessAll p.2)))
      ∧ (setup objects).tasks.length = objects.length :=
  ⟨setup_perm_keys objects, setup_tasks_length objects⟩

theorem setup_tasks_uid_nodup (objects : List ScriptObject) :
    (setup objects).tasks.Nodup := by
  have h := setup_perm_keys objects
  have hrange : (objects.enum.map (fun p => (p.1, applyProcessAll p.2))).map Prod.fst
      = List.range objects.length := by
    rw [List.map_map]
    have : (Prod.fst ∘ fun p : Nat × ScriptObject => (p.1, applyProcessAll p.2))
        = Prod.fst := rfl
    rw [this, List.enum_map_fst]
  have hnodup2 : (objects.enum.map (fun p => (p.1, applyProcessAll p.2))).Nodup := by
    apply List.Nodup.of_map Prod.fst
    rw [hrange]
    exact List.nodup_range _
  have hkeys : ((setup objects).tasks.map taskKey).Nodup := h.symm.nodup hnodup2
  exact List.Nodup.of_map taskKey hkeys

/-! ## Query-task order (C3) -/

theorem foldl_filter_push (P : Task → Bool) :
    ∀ (l : List Task) (acc : List Task),
      l.foldl (fun acc t => if P t then acc ++ [t] else acc) acc =
        acc ++ l.filter P := by
  intro l
  induction l with
  | nil => intro acc; simp
  | cons t l ih =>
    intro acc
    rw [List.foldl_cons]
    by_cases h : P t
    · simp only [h, if_true, ih, List.filter_cons, List.append_assoc,
        List.singleton_append]
    · simp only [h, if_false, ih, List.filter_cons, Bool.false_eq_true]

theorem foldl_dedup_push (P : Task → Bool) :
    ∀ (l : List Task) (acc : List Task), l.Nodup →
      (∀ x ∈ l, (x ∈ acc ↔ P x = true)) →
      l.foldl (fun acc t => if t ∈ acc then acc else acc ++ [t]) acc =
        acc ++ l.filter (fun t => !(P t)) := by
  intro l
  induction l with
  | nil => intro acc _ _; simp
  | cons t l ih =>
    intro acc hnd hmem
    rw [List.foldl_cons]
    have hnd2 := List.nodup_cons.mp hnd
    by_cases h : P t
    · have ht : t ∈ acc := (hmem t (by simp)).mpr h
      rw [if_pos ht, ih acc hnd2.2 (fun x hx => hmem x (by simp [hx]))]
      simp [List.filter_cons, h]
    · have ht : t ∉ acc := fun hc => h ((hmem t (by simp)).mp hc)
      rw [if_neg ht, ih (acc ++ [t]) hnd2.2 ?side]
      · simp [List.filter_cons, h]
      case side =>
        intro x hx
        rw [List.mem_append]
        constructor
        · rintro (hc | hc)
          · exact (hmem x (by simp [hx])).mp hc
          · simp at hc
            subst hc
            exact absurd hx hnd2.1
        · intro hp
          exact Or.inl ((hmem x (by simp [hx])).mpr hp)

theorem buildQueryTasks_eq (l : List Task) (hnd : l.Nodup) :
    buildQueryTasks l =
      l.filter (fun t => t.scriptObject.sourceAllRecords || t.scriptObject.isLimitedQuery)
        ++ l.filter (fun t =>
            !(t.scriptObject.sourceAllRecords || t.scriptObject.isLimitedQuery)) := by
  rw [buildQueryTasks]
  rw [foldl_filter_push
    (fun t => t.scriptObject.sourceAllRecords || t.scriptObject.isLimitedQuery) l []]
  rw [List.nil_append]
  exact foldl_dedup_push _ l _ hnd (fun x hx => by
    constructor
    · intro hc
      exact (List.mem_filter.mp hc).2
    · intro hp
      exact List.mem_filter.mpr ⟨hx, hp⟩)

/-- C3.  After `setup()`, `queryTasks` is exactly the tasks whose source
retrieval is unrestricted (`sourceData.allRecords`) or whose object is
flagged `isLimitedQuery`, in task order, followed by all remaining tasks in
task order; it is a permutation of `tasks` (each task exactly once, nothing
else) with no duplicates. -/
theorem C3_queryTasks_order (objects : List ScriptObject) :
    (setup objects).queryTasks =
        (setup objects).tasks.filter
            (fun t => t.scriptObject.sourceAllRecords || t.scriptObject.isLimitedQuery)
          ++ (setup objects).tasks.filter
            (fun t => !(t.scriptObject.sourceAllRecords || t.scriptObject.isLimitedQuery))
      ∧ (setup objects).queryTasks.Perm (setup objects).tasks
      ∧ (setup objects).queryTasks.Nodup := by
  have hnd := setup_tasks_uid_nodup objects
  have heq : (setup objects).queryTasks = buildQueryTasks (setup objects).tasks := rfl
  have h := buildQueryTasks_eq (setup objects).tasks hnd
  refine ⟨heq.trans h, ?_, ?_⟩
  · rw [heq, h]
    exact List.filter_append_perm _ _
  · rw [heq, h]
    exact (List.filter_append_perm _ _).symm.nodup hnd

/-! ## Identity / read-only / ordinary placement (C4) -/

/-- The object is the designated RecordType identity object. -/
def isRTObj (o : ScriptObject) : Bool :=
  o.name == RECORD_TYPE_SOBJECT_NAME

/-- The object is read-only (and not the identity object). -/
def isROObj (o : ScriptObject) : Bool :=
  !isRTObj o && o.isReadonlyObject

/-- The object is ordinary: neither the identity object nor read-only. -/
def isOrdObj (o : ScriptObject) : Bool :=
  !isRTObj o && !o.isReadonlyObject

theorem applyProcessAll_name (o : ScriptObject) :
    (applyProcessAll o).name = o.name := by
  rw [applyProcessAll]
  split
  · rfl
  · split <;> rfl

theorem applyProcessAll_isReadonlyObject (o : ScriptObject) :
    (applyProcessAll o).isReadonlyObject = o.isReadonlyObject := by
  rw [applyProcessAll]
  split
  · rfl
  · split <;> rfl

theorem applyProcessAll_parentLookupObjects (o : ScriptObject) :
    (applyProcessAll o).parentLookupObjects = o.parentLookupObjects := by
  rw [applyProcessAll]
  split
  · rfl
  · split <;> rfl

theorem isRTObj_applyProcessAll (o : ScriptObject) :
    isRTObj (applyProcessAll o) = isRTObj o := by
  rw [isRTObj, isRTObj, applyProcessAll_name]

theorem isROObj_spec (o : ScriptObject) :
    isROObj o = true ↔ (isRTObj o = false ∧ o.isReadonlyObject = true) := by
  rw [isROObj]
  cases h : isRTObj o <;> simp

theorem isOrdObj_spec (o : ScriptObject) :
    isOrdObj o = true ↔ (isRTObj o = false ∧ o.isReadonlyObject = false) := by
  rw [isOrdObj]
  cases h : isRTObj o <;> cases h2 : o.isReadonlyObject <;> simp

/-- The structural invariant of `setup`'s placement loop: the task chain is
an identity-object block, then a read-only block, then the ordinary block,
with `lowerIndexForReadonlyObjects` and `lowerIndexForAnyObjects` the two
block boundaries. -/
def BlocksInv (s : SetupState) : Prop :=
  ∃ A B C : List Task,
    s.tasks = A ++ B ++ C
      ∧ (∀ t ∈ A, isRTObj t.scriptObject = true)
      ∧ (∀ t ∈ B, isROObj t.scriptObject = true)
      ∧ (∀ t ∈ C, isOrdObj t.scriptObject = true)
      ∧ s.lowerRO = A.length
      ∧ s.lowerAny = A.length + B.length

theorem pred_transport (P : ScriptObject → Bool) (X2 X : List Task)
    (hmap : X2.map taskKey = X.map taskKey)
    (h : ∀ t ∈ X, P t.scriptObject = true) :
    ∀ t ∈ X2, P t.scriptObject = true := by
  intro t ht
  have hmem : taskKey t ∈ X2.map taskKey := List.mem_map_of_mem _ ht
  rw [hmap] at hmem
  rcases List.mem_map.mp hmem with ⟨u, hu, hk⟩
  have hsobj : t.scriptObject = u.scriptObject := (congrArg Prod.snd hk).symm
  rw [hsobj]
  exact h u hu

theorem decomp_of_map_eq (l2 l1 : List Task)
    (hmap : l2.map taskKey = l1.map taskKey) (A B C : List Task)
    (hl : l1 = A ++ B ++ C) :
    ∃ A2 B2 C2 : List Task,
      l2 = A2 ++ B2 ++ C2
        ∧ A2.length = A.length ∧ B2.length = B.length
        ∧ A2.map taskKey = A.map taskKey
        ∧ B2.map taskKey = B.map taskKey
        ∧ C2.map taskKey = C.map taskKey := by
  subst hl
  refine ⟨l2.take A.length, (l2.drop A.length).take B.length,
    (l2.drop A.length).drop B.length, ?_, ?_, ?_, ?_, ?_, ?_⟩
  · rw [List.append_assoc, List.take_append_drop, List.take_append_drop]
  · have hlen : l2.length = (A ++ B ++ C).length := by
      have := congrArg List.length hmap
      simpa using this
    simp at hlen
    simp [List.length_take]
    omega
  · have hlen : l2.length = (A ++ B ++ C).length := by
      have := congrArg List.length hmap
      simpa using this
    simp at hlen
    simp [List.length_take, List.length_drop]
    omega
  · have : (l2.take A.length).map taskKey = (l2.map taskKey).take A.length := by
      rw [List.map_take]
    rw [this, hmap, List.map_append, List.map_append, List.append_assoc]
    exact List.take_left' (by simp)
  · have : ((l2.drop A.length).take B.length).map taskKey =
        ((l2.map taskKey).drop A.length).take B.length := by
      rw [List.map_take, List.map_drop]
    rw [this, hmap, List.map_append, List.map_append, List.append_assoc]
    rw [List.drop_left' (by simp)]
    exact List.take_left' (by simp)
  · have : ((l2.drop A.length).drop B.length).map taskKey =
        ((l2.map taskKey).drop A.length).drop B.length := by
      rw [List.map_drop, List.map_drop]
    rw [this, hmap, List.map_append, List.map_append, List.append_assoc]
    rw [List.drop_left' (by simp)]
    exact List.drop_left' (by simp)

theorem setupStep_blocks (s : SetupState) (p : Nat × ScriptObject)
    (h : BlocksInv s) : BlocksInv (setupStep s p) := by
  obtain ⟨A, B, C, htasks, hA, hB, hC, hRO, hAny⟩ := h
  rw [setupStep]
  split
  next hrt =>
    refine ⟨{ uid := p.1, scriptObject := applyProcessAll p.2 } :: A, B, C,
      ?_, ?_, hB, hC, ?_, ?_⟩
    · rw [htasks]
      rfl
    · intro t ht
      rcases List.mem_cons.mp ht with ht | ht
      · rw [ht]
        exact hrt
      · exact hA t ht
    · simp [hRO]
    · simp [hAny]
      omega
  next hrt =>
    have hrtf : isRTObj (applyProcessAll p.2) = false := by
      rw [isRTObj]
      exact Bool.eq_false_iff.mpr hrt
    split
    next hro =>
      refine ⟨A, { uid := p.1, scriptObject := applyProcessAll p.2 } :: B, C,
        ?_, hA, ?_, hC, ?_, ?_⟩
      · show insertAt s.tasks s.lowerRO _ = _
        rw [htasks, hRO, List.append_assoc,
          insertAt_append_right A (B ++ C) A.length _ (le_refl _)]
        simp [insertAt_zero]
      · intro t ht
        rcases List.mem_cons.mp ht with ht | ht
        · rw [ht]
          exact isROObj_spec _ |>.mpr ⟨hrtf, hro⟩
        · exact hB t ht
      · exact hRO
      · simp [hAny]
        omega
    next hro =>
      have hrof : (applyProcessAll p.2).isReadonlyObject = false :=
        Bool.eq_false_iff.mpr hro
      split
      next hlen =>
        have hnil : s.tasks = [] := by
          rw [← List.length_eq_zero]
          simpa using hlen
        have hABC : A = [] ∧ B = [] ∧ C = [] := by
          rw [htasks] at hnil
          rcases List.append_eq_nil.mp hnil with ⟨hab, hc⟩
          rcases List.append_eq_nil.mp hab with ⟨ha, hb⟩
          exact ⟨ha, hb, hc⟩
        refine ⟨[], [], [{ uid := p.1, scriptObject := applyProcessAll p.2 }],
          ?_, by simp, by simp, ?_, ?_, ?_⟩
        · rw [hnil]
          rfl
        · intro t ht
          rcases List.mem_singleton.mp ht with ht
          rw [ht]
          exact isOrdObj_spec _ |>.mpr ⟨hrtf, hrof⟩
        · show s.lowerRO = 0
          rw [hRO, hABC.1]
          rfl
        · show s.lowerAny = 0
          rw [hAny, hABC.1, hABC.2.1]
          rfl
      next hlen =>
        dsimp only
        obtain ⟨A2, B2, C2, hl2, hlA, hlB, hmA, hmB, hmC⟩ :=
          decomp_of_map_eq (scanTasks (applyProcessAll p.2) s.tasks s.lowerAny).1
            s.tasks (scanTasks_map_taskKey _ _ _) A B C htasks
        have hidx : A.length + B.length ≤
            (scanTasks (applyProcessAll p.2) s.tasks s.lowerAny).2 := by
          rcases scanTasks_idx (applyProcessAll p.2) s.tasks s.lowerAny with hi | hi
          · rw [hi, htasks]
            simp only [List.length_append]
            omega
          · have h1 := hi.1
            omega
        refine ⟨A2, B2,
          insertAt C2 ((scanTasks (applyProcessAll p.2) s.tasks s.lowerAny).2
            - A2.length - B2.length) { uid := p.1, scriptObject := applyProcessAll p.2 },
          ?_, pred_transport _ _ _ hmA hA, pred_transport _ _ _ hmB hB, ?_, ?_, ?_⟩
        · rw [hl2, List.append_assoc,
            insertAt_append_right A2 (B2 ++ C2) _ _ (by omega),
            insertAt_append_right B2 C2 _ _ (by omega)]
          have : (scanTasks (applyProcessAll p.2) s.tasks s.lowerAny).2
              - A2.length - B2.length =
              (scanTasks (applyProcessAll p.2) s.tasks s.lowerAny).2
                - A2.length - B2.length := rfl
          simp [List.append_assoc]
        · intro t ht
          rcases mem_insertAt _ _ _ _ ht with ht | ht
          · exact pred_transport _ _ _ hmC hC t ht
          · rw [ht]
            exact isOrdObj_spec _ |>.mpr ⟨hrtf, hrof⟩
        · show s.lowerRO = A2.length
          rw [hRO, hlA]
        · show s.lowerAny = A2.length + B2.length
          rw [hAny, hlA, hlB]

theorem setupFold_blocks :
    ∀ (l : List (Nat × ScriptObject)) (s : SetupState),
      BlocksInv s → BlocksInv (l.foldl setupStep s) := by
  intro l
  induction l with
  | nil => intro s h; exact h
  | cons p l ih =>
    intro s h
    rw [List.foldl_cons]
    exact ih _ (setupStep_blocks s p h)

theorem setup_blocks (objects : List ScriptObject) :
    BlocksInv (setupTasks objects) :=
  setupFold_blocks objects.enum {}
    ⟨[], [], [], rfl, by simp, by simp, by simp, rfl, rfl⟩

theorem setup_countP_rt (objects : List ScriptObject) :
    (setup objects).tasks.countP (fun t => isRTObj t.scriptObject)
      = objects.countP (fun o => isRTObj o) := by
  have h := setup_perm_keys objects
  have h1 : (setup objects).tasks.countP (fun t => isRTObj t.scriptObject)
      = ((setup objects).tasks.map taskKey).countP
          (fun k : Nat × ScriptObject => isRTObj k.2) := by
    rw [List.countP_map]
    rfl
  rw [h1, List.Perm.countP_eq _ h, List.countP_map]
  have h2 : ((fun k : Nat × ScriptObject => isRTObj k.2) ∘
      (fun p : Nat × ScriptObject => (p.1, applyProcessAll p.2)))
      = fun p : Nat × ScriptObject => isRTObj p.2 := by
    funext q
    simp [Function.comp, isRTObj_applyProcessAll]
  rw [h2]
  have h3 : (fun p : Nat × ScriptObject => isRTObj p.2)
      = (fun o => isRTObj o) ∘ Prod.snd := rfl
  rw [h3, ← List.countP_map, List.enum_map_snd]

theorem block_position (A B C : List Task)
    (hA : ∀ t ∈ A, isRTObj t.scriptObject = true)
    (hB : ∀ t ∈ B, isROObj t.scriptObject = true)
    (hC : ∀ t ∈ C, isOrdObj t.scriptObject = true)
    (i : Nat) (t : Task) (hget : (A ++ B ++ C)[i]? = some t) :
    (isROObj t.scriptObject = true → A.length ≤ i ∧ i < A.length + B.length)
      ∧ (isOrdObj t.scriptObject = true → A.length + B.length ≤ i) := by
  rw [List.append_assoc] at hget
  by_cases h1 : i < A.length
  · rw [List.getElem?_append, if_pos h1] at hget
    have hmem : t ∈ A := List.getElem?_mem hget
    have hrt := hA t hmem
    constructor
    · intro hro
      rcases (isROObj_spec _).mp hro with ⟨hf, _⟩
      rw [hrt] at hf
      cases hf
    · intro hord
      rcases (isOrdObj_spec _).mp hord with ⟨hf, _⟩
      rw [hrt] at hf
      cases hf
  · have h1' : A.length ≤ i := by omega
    rw [List.getElem?_append_right h1'] at hget
    by_cases h2 : i - A.length < B.length
    · rw [List.getElem?_append, if_pos h2] at hget
      have hmem : t ∈ B := List.getElem?_mem hget
      have hro := hB t hmem
      constructor
      · intro _
        omega
      · intro hord
        rcases (isROObj_spec _).mp hro with ⟨_, hr⟩
        rcases (isOrdObj_spec _).mp hord with ⟨_, hr2⟩
        rw [hr] at hr2
        cases hr2
    · have h2' : B.length ≤ i - A.length := by omega
      rw [List.getElem?_append_right h2'] at hget
      have hmem : t ∈ C := List.getElem?_mem hget
      have hord := hC t hmem
      constructor
      · intro hro
        rcases (isROObj_spec _).mp hro with ⟨_, hr⟩
        rcases (isOrdObj_spec _).mp hord with ⟨_, hr2⟩
        rw [hr] at hr2
        cases hr2
      · intro _
        omega

/-- C4.  Whenever the input contains exactly one object named `RecordType`,
the task chain holds exactly one RecordType task and it sits at index 0;
every read-only object's task sits at a positive index, and strictly before
every ordinary (non-identity, non-read-only) object's task. -/
theorem C4_identity_then_readonly_then_ordinary (objects : List ScriptObject)
    (hone : objects.countP (fun o => isRTObj o) = 1) :
    (setup objects).tasks.countP (fun t => isRTObj t.scriptObject) = 1
      ∧ (∃ t, (setup objects).tasks.head? = some t ∧ isRTObj t.scriptObject = true)
      ∧ (∀ (i : Nat) (t : Task), (setup objects).tasks[i]? = some t →
          isROObj t.scriptObject = true → 0 < i)
      ∧ (∀ (i j : Nat) (t u : Task), (setup objects).tasks[i]? = some t →
          (setup objects).tasks[j]? = some u →
          isROObj t.scriptObject = true → isOrdObj u.scriptObject = true → i < j) := by
  obtain ⟨A, B, C, htasks, hA, hB, hC, hRO, hAny⟩ := setup_blocks objects
  have htasks' : (setup objects).tasks = A ++ B ++ C := htasks
  have hcnt : (setup objects).tasks.countP (fun t => isRTObj t.scriptObject) = 1 := by
    rw [setup_countP_rt]
    exact hone
  have hAlen : A.length = 1 := by
    have hcA : A.countP (fun t => isRTObj t.scriptObject) = A.length :=
      List.countP_eq_length.mpr hA
    have hcB : B.countP (fun t => isRTObj t.scriptObject) = 0 :=
      List.countP_eq_zero.mpr (fun a ha h => by
        rcases (isROObj_spec _).mp (hB a ha) with ⟨hf, _⟩
        rw [h] at hf
        cases hf)
    have hcC : C.countP (fun t => isRTObj t.scriptObject) = 0 :=
      List.countP_eq_zero.mpr (fun a ha h => by
        rcases (isOrdObj_spec _).mp (hC a ha) with ⟨hf, _⟩
        rw [h] at hf
        cases hf)
    rw [htasks', List.countP_append, List.countP_append, hcA, hcB, hcC] at hcnt
    omega
  obtain ⟨t0, hA0⟩ := List.length_eq_one.mp hAlen
  refine ⟨hcnt, ⟨t0, ?_, ?_⟩, ?_, ?_⟩
  · rw [htasks', hA0]
    rfl
  · exact hA t0 (by rw [hA0]; simp)
  · intro i t hget hro
    rw [htasks'] at hget
    have hpos := (block_position A B C hA hB hC i t hget).1 hro
    omega
  · intro i j t u hgt hgu hro hord
    rw [htasks'] at hgt hgu
    have hposT := (block_position A B C hA hB hC i t hgt).1 hro
    have hposU := (block_position A B C hA hB hC j u hgu).2 hord
    omega

/-- The RecordType identity object of the concrete C4 witness run. -/
def exRT : ScriptObject := { name := "RecordType" }

/-- A read-only object of the concrete C4 witness run. -/
def exRO : ScriptObject := { name := "ReadOnly1", isReadonlyObject := true }

/-- An ordinary object of the concrete C4 witness run. -/
def exOrd : ScriptObject := { name := "Account" }

/-- The declared object list of the concrete C4 witness run: ordinary, then
read-only, then RecordType — setup must reorder them. -/
def exObjectsC4 : List ScriptObject := [exOrd, exRO, exRT]

/-! ## Master-detail ordering (C1) -/

/-- The object names of a task list, in task order. -/
def namesOf (l : List Task) : List String :=
  l.map (fun t => t.scriptObject.name)

theorem namesOf_eq_map_keys (l : List Task) :
    namesOf l = (l.map taskKey).map (fun k : Nat × ScriptObject => k.2.name) := by
  rw [namesOf, List.map_map]
  rfl

theorem scanTasks_namesOf (obj : ScriptObject) (ts : List Task) (lo : Nat) :
    namesOf (scanTasks obj ts lo).1 = namesOf ts := by
  rw [namesOf_eq_map_keys, namesOf_eq_map_keys, scanTasks_map_taskKey]

theorem namesOf_insertAt (l : List Task) (i : Nat) (t : Task) :
    namesOf (insertAt l i t) = insertAt (namesOf l) i t.scriptObject.name := by
  rw [namesOf, insertAt_map]
  rfl

theorem setupStep_names_sublist (s : SetupState) (p : Nat × ScriptObject) :
    (namesOf s.tasks).Sublist (namesOf (setupStep s p).tasks) := by
  rw [setupStep]
  split
  · exact List.sublist_cons_self _ _
  · split
    · dsimp only
      rw [namesOf_insertAt]
      exact sublist_insertAt _ _ _
    · split
      · dsimp only
        simp only [namesOf, List.map_append]
        exact List.sublist_append_left _ _
      · dsimp only
        rw [namesOf_insertAt]
        refine List.Sublist.trans ?_ (sublist_insertAt _ _ _)
        rw [scanTasks_namesOf]

theorem setupFold_names_sublist :
    ∀ (l : List (Nat × ScriptObject)) (s : SetupState),
      (namesOf s.tasks).Sublist (namesOf (l.foldl setupStep s).tasks) := by
  intro l
  induction l with
  | nil => intro s; exact List.Sublist.refl _
  | cons p l ih =>
    intro s
    rw [List.foldl_cons]
    exact (setupStep_names_sublist s p).trans (ih (setupStep s p))

theorem scanTasks_idx_of_no_lookup (obj : ScriptObject) (ts : List Task) (lo : Nat)
    (h : ∀ t ∈ ts, t.scriptObject.parentLookupObjects.any (fun x => x == obj.name)
      = false) :
    (scanTasks obj ts lo).2 = ts.length := by
  rw [scanTasks]
  suffices haux : ∀ (idxs : List Nat) (s : List Task × Nat),
      s.1.map taskKey = ts.map taskKey →
      (idxs.foldl (scanBody obj) s).2 = s.2
        ∧ (idxs.foldl (scanBody obj) s).1.map taskKey = ts.map taskKey by
    exact (haux _ (ts, ts.length) rfl).1
  intro idxs
  induction idxs with
  | nil => intro s hs; exact ⟨rfl, hs⟩
  | cons i idxs ih =>
    intro s hs
    rw [List.foldl_cons]
    have hbody_map := scanBody_map_taskKey obj s i
    have hbody2 : (scanBody obj s i).2 = s.2 := by
      rw [scanBody]
      cases hg : s.1[i]? with
      | none => rfl
      | some t =>
        dsimp only
        have hlook : t.scriptObject.parentLookupObjects.any (fun x => x == obj.name)
            = false := by
          have hmem : taskKey t ∈ s.1.map taskKey :=
            List.mem_map_of_mem _ (List.getElem?_mem hg)
          rw [hs] at hmem
          rcases List.mem_map.mp hmem with ⟨u, hu, hk⟩
          have hsobj : t.scriptObject = u.scriptObject := (congrArg Prod.snd hk).symm
          rw [hsobj]
          exact h u hu
        rw [hlook]
        split
        · next hcond => simp at hcond
        · split
          · rfl
          · rfl
    rcases ih (scanBody obj s i) (by rw [hbody_map]; exact hs) with ⟨h1, h2⟩
    exact ⟨h1.trans hbody2, h2⟩

theorem indexOf_append_not_mem (a : String) (l1 l2 : List String) (h : a ∉ l1) :
    (l1 ++ l2).indexOf a = l1.length + l2.indexOf a := by
  induction l1 with
  | nil => simp
  | cons x l1 ih =>
    have hxa : x ≠ a := fun he => h (by rw [he]; simp)
    rw [List.cons_append, List.indexOf_cons_ne _ hxa,
      ih (fun hm => h (by simp [hm]))]
    simp [Nat.succ_eq_add_one]
    omega

theorem indexOf_lt_of_pair_sublist (p c : String) (ns : List String)
    (h : ([p, c]).Sublist ns) (hnd : ns.Nodup) :
    ns.indexOf p < ns.indexOf c := by
  rw [List.cons_sublist_iff] at h
  obtain ⟨r1, r2, hns, hp, hc'⟩ := h
  have hc : c ∈ r2 := List.singleton_sublist.mp hc'
  obtain ⟨x1, x2, hr1⟩ := List.append_of_mem hp
  subst hr1
  subst hns
  rw [List.append_assoc, List.cons_append] at hnd ⊢
  rcases List.nodup_append.mp hnd with ⟨hnd1, hnd2, hdisj⟩
  have hpr : p ∉ x2 ++ r2 := (List.nodup_cons.mp hnd2).1
  have hcp : p ≠ c := fun he => hpr (he ▸ List.mem_append_right _ hc)
  have hcn1 : c ∉ x1 := fun hmem =>
    hdisj hmem (List.mem_cons_of_mem _ (List.mem_append_right _ hc))
  have hpn1 : p ∉ x1 := fun hmem => hdisj hmem (List.mem_cons_self _ _)
  rw [indexOf_append_not_mem p x1 _ hpn1, indexOf_append_not_mem c x1 _ hcn1,
    List.indexOf_cons_self, List.indexOf_cons_ne _ hcp]
  omega

theorem fold_names_perm (l : List (Nat × ScriptObject)) :
    (namesOf ((l.foldl setupStep {}).tasks)).Perm (l.map (fun p => p.2.name)) := by
  have h := setupFold_tasks_perm l {}
  have h2 := h.map (fun k : Nat × ScriptObject => k.2.name)
  have h3 : ((fun k : Nat × ScriptObject => k.2.name) ∘
      (fun p : Nat × ScriptObject => (p.1, applyProcessAll p.2)))
      = fun p : Nat × ScriptObject => p.2.name := by
    funext q
    simp [Function.comp, applyProcessAll_name]
  rw [namesOf_eq_map_keys]
  simpa [List.map_map, h3] using h2

theorem setup_names_perm (os : List ScriptObject) :
    (namesOf (setup os).tasks).Perm (os.map (fun o => o.name)) := by
  have h := fold_names_perm os.enum
  have h2 : os.enum.map (fun p : Nat × ScriptObject => p.2.name)
      = os.map (fun o => o.name) := by
    have : (fun p : Nat × ScriptObject => p.2.name)
        = (fun o : ScriptObject => o.name) ∘ Prod.snd := rfl
    rw [this, ← List.map_map, List.enum_map_snd]
  rw [h2] at h
  exact h

/-- C1 (amended).  The greedy insertion keeps a master-detail child strictly
after its parent only under extra conditions: whenever the parent is
declared before the child, the child is an ordinary object (not the
RecordType object and not read-only), and no object declared before the
child lists the child among its lookup parents, then the child's task index
in the final `tasks` order is strictly greater than the parent's task index
(object names assumed pairwise distinct).  Without those conditions the
invariant fails (see the counterexample). -/
theorem C1_md_child_after_parent_amended (os : List ScriptObject)
    (parent child : ScriptObject) (i j : Nat)
    (hpi : os[i]? = some parent)
    (hcj : os[j]? = some child)
    (hij : i < j)
    (hmd : parent.name ∈ child.parentMasterDetailObjects)
    (hnd : (os.map (fun o => o.name)).Nodup)
    (hrt : (child.name == RECORD_TYPE_SOBJECT_NAME) = false)
    (hro : child.isReadonlyObject = false)
    (hnolook : (os.take j).all
      (fun o => !(o.parentLookupObjects.any (fun x => x == child.name))) = true) :
    (namesOf (setup os).tasks).indexOf parent.name <
      (namesOf (setup os).tasks).indexOf child.name := by
  have hjlen : j < os.length := (List.getElem?_eq_some_iff.mp hcj).1
  have hsplit : os.enum = os.enum.take j ++ (j, child) :: os.enum.drop (j + 1) := by
    have hjlen2 : j < os.enum.length := by rw [List.enum_length]; exact hjlen
    have hget : os.enum[j] = (j, child) := by
      have hq := List.getElem?_enum os j
      rw [hcj] at hq
      rcases List.getElem?_eq_some_iff.mp hq with ⟨h, he⟩
      exact he
    conv_lhs => rw [← List.take_append_drop j os.enum]
    rw [List.drop_eq_getElem_cons hjlen2, hget]
  have hfold : (setup os).tasks =
      ((os.enum.drop (j + 1)).foldl setupStep
        (setupStep ((os.enum.take j).foldl setupStep {}) (j, child))).tasks := by
    show (setupTasks os).tasks = _
    rw [setupTasks]
    conv_lhs => rw [hsplit]
    rw [List.foldl_append, List.foldl_cons]
  have hperm_names := fold_names_perm (os.enum.take j)
  have hparent_mem_pre : (i, parent) ∈ os.enum.take j := by
    have hgetp : (os.enum.take j)[i]? = some (i, parent) := by
      rw [List.getElem?_take, if_pos hij, List.getElem?_enum, hpi]
      rfl
    exact List.getElem?_mem hgetp
  have hparent_name :
      parent.name ∈ namesOf (((os.enum.take j).foldl setupStep {}).tasks) := by
    apply hperm_names.mem_iff.mpr
    exact List.mem_map.mpr ⟨(i, parent), hparent_mem_pre, rfl⟩
  have hnolook2 : ∀ t ∈ ((os.enum.take j).foldl setupStep ({} : SetupState)).tasks,
      t.scriptObject.parentLookupObjects.any
        (fun x => x == (applyProcessAll child).name) = false := by
    intro t ht
    have hkey : taskKey t ∈
        (((os.enum.take j).foldl setupStep ({} : SetupState)).tasks).map taskKey :=
      List.mem_map_of_mem _ ht
    have hperm_keys := setupFold_tasks_perm (os.enum.take j) ({} : SetupState)
    rw [hperm_keys.mem_iff] at hkey
    have hkey2 : taskKey t ∈
        (os.enum.take j).map (fun p => (p.1, applyProcessAll p.2)) := by
      have h0 : (({} : SetupState)).tasks.map taskKey = [] := rfl
      rw [h0, List.nil_append] at hkey
      exact hkey
    rcases List.mem_map.mp hkey2 with ⟨q, hq, hk⟩
    have hsobj : t.scriptObject = applyProcessAll q.2 := (congrArg Prod.snd hk).symm
    rw [hsobj, applyProcessAll_parentLookupObjects, applyProcessAll_name]
    have hq2 : q.2 ∈ os.take j := by
      have hmem : q.2 ∈ (os.enum.take j).map Prod.snd := List.mem_map_of_mem _ hq
      rw [List.map_take, List.enum_map_snd] at hmem
      exact hmem
    have := List.all_eq_true.mp hnolook q.2 hq2
    rwa [Bool.not_eq_true'] at this
  have hscan : (scanTasks (applyProcessAll child)
      ((os.enum.take j).foldl setupStep ({} : SetupState)).tasks
      ((os.enum.take j).foldl setupStep ({} : SetupState)).lowerAny).2 =
      ((os.enum.take j).foldl setupStep ({} : SetupState)).tasks.length :=
    scanTasks_idx_of_no_lookup _ _ _ hnolook2
  have hne : ((os.enum.take j).foldl setupStep ({} : SetupState)).tasks.length ≠ 0 := by
    intro h0
    have hempty : ((os.enum.take j).foldl setupStep ({} : SetupState)).tasks = [] :=
      List.length_eq_zero.mp h0
    rw [namesOf, hempty] at hparent_name
    simp at hparent_name
  have hstep_names :
      namesOf ((setupStep ((os.enum.take j).foldl setupStep {}) (j, child)).tasks)
        = namesOf (((os.enum.take j).foldl setupStep ({} : SetupState)).tasks)
          ++ [child.name] := by
    rw [setupStep]
    rw [if_neg ?hc1]
    case hc1 =>
      intro hcond
      rw [applyProcessAll_name, hrt] at hcond
      simp at hcond
    rw [if_neg ?hc2]
    case hc2 =>
      intro hcond
      rw [applyProcessAll_isReadonlyObject, hro] at hcond
      simp at hcond
    rw [if_neg ?hc3]
    case hc3 =>
      intro hcond
      exact hne (by simpa using hcond)
    dsimp only
    rw [namesOf_insertAt, hscan, scanTasks_namesOf]
    have hlen : (namesOf (((os.enum.take j).foldl setupStep
        ({} : SetupState)).tasks)).length =
        ((os.enum.take j).foldl setupStep ({} : SetupState)).tasks.length := by
      rw [namesOf]
      simp
    rw [← hlen, insertAt_length_self, applyProcessAll_name]
  have hpair : ([parent.name, child.name]).Sublist
      (namesOf ((setupStep ((os.enum.take j).foldl setupStep {}) (j, child)).tasks)) := by
    rw [hstep_names]
    have hsplit2 : [parent.name, child.name] = [parent.name] ++ [child.name] := rfl
    rw [hsplit2]
    exact List.Sublist.append (List.singleton_sublist.mpr hparent_name)
      (List.Sublist.refl _)
  have hpair2 : ([parent.name, child.name]).Sublist (namesOf (setup os).tasks) := by
    rw [hfold]
    exact hpair.trans (setupFold_names_sublist _ _)
  have hnodup_final : (namesOf (setup os).tasks).Nodup :=
    (setup_names_perm os).symm.nodup hnd
  exact indexOf_lt_of_pair_sublist _ _ _ hpair2 hnodup_final

/-- The master-detail child of the C1 counterexample: `B` has `P` as its
master-detail (hence also lookup) parent. -/
def cexMDChild : ScriptObject :=
  { name := "B", parentLookupObjects := ["P"], parentMasterDetailObjects := ["P"] }

/-- The middle object of the C1 counterexample: `X` has `B` as its
master-detail (hence also lookup) parent. -/
def cexMDMid : ScriptObject :=
  { name := "X", parentLookupObjects := ["B"], parentMasterDetailObjects := ["B"] }

/-- The root parent of the C1 counterexample: `P` has no parents. -/
def cexMDParent : ScriptObject := { name := "P" }

/-- The C1 counterexample input: the pure master-detail chain
`P → B → X` declared in the order `[B, X, P]`. -/
def cexObjectsC1 : List ScriptObject := [cexMDChild, cexMDMid, cexMDParent]

/-- C1 counterexample.  On the acyclic master-detail chain `P → B → X`
declared `[B, X, P]`, `setup()` produces the task order `[B, X, P]`: the
child `B` lists `P` among its master-detail parents, yet `B`'s task index
(0) is NOT strictly greater than `P`'s task index (2) — the claimed
invariant fails.  (The scan flags `B` as a master-detail task while placing
`X`, and that flag later stops `P` from being moved before `B`.) -/
theorem C1_counterexample_md_chain :
    cexMDParent.name ∈ cexMDChild.parentMasterDetailObjects
      ∧ namesOf (setup cexObjectsC1).tasks = ["B", "X", "P"]
      ∧ ¬ ((namesOf (setup cexObjectsC1).tasks).indexOf cexMDChild.name >
          (namesOf (setup cexObjectsC1).tasks).indexOf cexMDParent.name) := by
  refine ⟨by decide, by decide, by decide⟩

/-- The parent of the C1 witness run, declared first. -/
def exMDParentW : ScriptObject := { name := "P" }

/-- The master-detail child of the C1 witness run, declared second. -/
def exMDChildW : ScriptObject :=
  { name := "B", parentLookupObjects := ["P"], parentMasterDetailObjects := ["P"] }

/-- The C1 witness input: parent declared before child. -/
def exObjectsC1W : List ScriptObject := [exMDParentW, exMDChildW]

/-- C1 witness: the amended theorem applied to the concrete two-object
input `[P, B]` with `P` the master-detail parent of `B`. -/
theorem C1_md_child_after_parent_amended_witness :
    (namesOf (setup exObjectsC1W).tasks).indexOf exMDParentW.name <
      (namesOf (setup exObjectsC1W).tasks).indexOf exMDChildW.name :=
  C1_md_child_after_parent_amended exObjectsC1W exMDParentW exMDChildW 0 1
    (by decide) (by decide) (by decide) (by decide) (by decide) (by decide)
    (by decide) (by decide)

/-- C4 witness: the theorem applied to the concrete three-object input. -/
theorem C4_identity_then_readonly_then_ordinary_witness :
    (setup exObjectsC4).tasks.countP (fun t => isRTObj t.scriptObject) = 1
      ∧ (∃ t, (setup exObjectsC4).tasks.head? = some t ∧ isRTObj t.scriptObject = true)
      ∧ (∀ (i : Nat) (t : Task), (setup exObjectsC4).tasks[i]? = some t →
          isROObj t.scriptObject = true → 0 < i)
      ∧ (∀ (i j : Nat) (t u : Task), (setup exObjectsC4).tasks[i]? = some t →
          (setup exObjectsC4).tasks[j]? = some u →
          isROObj t.scriptObject = true → isOrdObj u.scriptObject = true → i < j) :=
  C4_identity_then_readonly_then_ordinary exObjectsC4 (by decide)

end SFDMU
